import Mathlib

/-
Shallow embedding of the pgmg migration orchestration engine.

The definitions below are translated from the JavaScript source of the
repository (the current CLI revision): the hook decision expression
(shouldContinue), the role namer (slugify and the two fixed role name
literals), the generated-role lifecycle (create_pgmg_objects and
teardown_pgmg_objects), the persisted-state queries the scheduler issues
(the found lookup with its legacy fallback, the dev-hook lookup, the hook
count), the bookkeeping inserts, the dev purge (removeDevMigrationRecords),
the schema-setup data fix (copying transaction hook records to action hook
records), and the per-phase scheduler (doHookPhase and the phase order),
with process exits and the session statements modelled as an explicit
event trace.

Timestamps are modelled as Int and the SQL date literal 2022-08-11 as the
constant legacyCutover.  JS truthiness is modelled explicitly: an optional
value is an Option, a missing export is none, and the empty string is the
only falsy string the engine meets.  The JS whitespace class is modelled
by its ASCII part, which is what migration names use.
-/

namespace Pgmg

/- ---------------------------------------------------------------------
   Role namer: slugify and the two generated role names.
   Source: function slugify(s){ return s.split('\n').join('').trim()
             .toLowerCase().replace(/\-|\s/g, '_') }
           migration_user = 'pgmg_migration_' + name_slug
           service_user   = 'pgmg_service_' + name_slug
--------------------------------------------------------------------- -/

/-- ASCII part of the JS whitespace class used by trim and the \s regex. -/
def jsIsSpace (c : Char) : Bool :=
  c = ' ' || c = '\t' || c = '\n' || c = '\r' || c = '\x0b' || c = '\x0c'

/-- s.split newline then join empty: drop every newline character. -/
def dropNewlines (l : List Char) : List Char :=
  l.filter (fun c => c ≠ '\n')

/-- JS String.prototype.trim: drop whitespace from both ends. -/
def jsTrim (l : List Char) : List Char :=
  ((l.dropWhile jsIsSpace).reverse.dropWhile jsIsSpace).reverse

/-- The role namer normalisation, translated from slugify in the source. -/
def slugify (s : String) : String :=
  let noNl := dropNewlines s.data
  let trimmed := jsTrim noNl
  let lowered := trimmed.map Char.toLower
  let replaced := lowered.map (fun c => if c = '-' || jsIsSpace c then '_' else c)
  String.mk replaced

/-- Generated migration-identity role name. -/
def migrationUserName (name : String) : String :=
  "pgmg_migration_" ++ slugify name

/-- Generated service-identity role name. -/
def serviceUserName (name : String) : String :=
  "pgmg_service_" ++ slugify name

/-- The pair of generated role names derived from a migration name. -/
def rolePair (name : String) : String × String :=
  (migrationUserName name, serviceUserName name)

/- ---------------------------------------------------------------------
   Hook decision expression.
   Source: const shouldContinue = dryComplete || action && ( ... )
--------------------------------------------------------------------- -/

/-- The row the found query yields: hook dev flag and recorded hostname.
    The hostname is an Option because the stub row used for always hooks
    carries no hostname (JS undefined). -/
structure FoundRec where
  dev : Bool
  hostname : Option String
  deriving DecidableEq, Repr

/-- dev field of the found row under JS truthiness: undefined row is falsy. -/
def foundDev (found : Option FoundRec) : Bool :=
  match found with
  | some f => f.dev
  | none => false

/-- The four recorded-state branches of the decision expression, shared
    verbatim by the source expression and by the spec reading of it. -/
def coreBranches (found : Option FoundRec) (ifExists : Bool) (devMode : Bool)
    (hasTeardown : Bool) (anyMigrationFound : Bool) (anyDevHookFound : Bool)
    (isClusterHook : Bool) (autoMigrationUserEnabled : Bool)
    (ifNoMigrationUser : Bool) (noMigrationUserFound : Bool)
    (hostIsDifferent : Bool) : Bool :=
  (found.isNone && !ifExists)
  || (found.isSome && foundDev found && devMode && hasTeardown)
  || (ifExists && anyMigrationFound && anyDevHookFound)
  || (found.isSome && isClusterHook
      && (if autoMigrationUserEnabled
          then ifNoMigrationUser && noMigrationUserFound
          else hostIsDifferent))

/-- The decision expression translated from the source, including its final
    disjunct (always and action). -/
def shouldContinue (dryComplete : Bool) (hasAction : Bool) (found : Option FoundRec)
    (ifExists : Bool) (devMode : Bool) (hasTeardown : Bool)
    (anyMigrationFound : Bool) (anyDevHookFound : Bool)
    (isClusterHook : Bool) (autoMigrationUserEnabled : Bool)
    (ifNoMigrationUser : Bool) (noMigrationUserFound : Bool)
    (hostIsDifferent : Bool) (alwaysFlag : Bool) : Bool :=
  dryComplete
  || (hasAction
      && (coreBranches found ifExists devMode hasTeardown anyMigrationFound
            anyDevHookFound isClusterHook autoMigrationUserEnabled
            ifNoMigrationUser noMigrationUserFound hostIsDifferent
          || (alwaysFlag && hasAction)))

/-- The decision rule as the spec sentence words it: dry-complete, or an
    executable body together with one of the four listed branches only. -/
def shouldContinueClaimed (dryComplete : Bool) (hasAction : Bool) (found : Option FoundRec)
    (ifExists : Bool) (devMode : Bool) (hasTeardown : Bool)
    (anyMigrationFound : Bool) (anyDevHookFound : Bool)
    (isClusterHook : Bool) (autoMigrationUserEnabled : Bool)
    (ifNoMigrationUser : Bool) (noMigrationUserFound : Bool)
    (hostIsDifferent : Bool) : Bool :=
  dryComplete
  || (hasAction
      && coreBranches found ifExists devMode hasTeardown anyMigrationFound
           anyDevHookFound isClusterHook autoMigrationUserEnabled
           ifNoMigrationUser noMigrationUserFound hostIsDifferent)

/- ---------------------------------------------------------------------
   Persisted state: the two bookkeeping tables and the server role list.
--------------------------------------------------------------------- -/

/-- The SQL date literal 2022-08-11 used by the legacy fallback and the dev
    purge, as an abstract timestamp. -/
def legacyCutover : Int := 20220811

/-- A row of pgmg.migration. -/
structure MigRecord where
  name : String
  filename : String
  description : Option String
  createdAt : Int
  deriving DecidableEq, Repr

/-- A row of pgmg.migration_hook. -/
structure HookRecordRow where
  hook : String
  name : String
  createdAt : Int
  dev : Bool
  hostname : String
  revision : Option Nat
  deriving DecidableEq, Repr

/-- The database state the engine reads and writes: the two bookkeeping
    tables plus the server-level role catalogue. -/
structure DB where
  migrations : List MigRecord
  hooks : List HookRecordRow
  roles : List String
  deriving DecidableEq, Repr

/-- select from pgmg.migration where name matches (unique name). -/
def findMigRecord (db : DB) (name : String) : Option MigRecord :=
  db.migrations.find? (fun m => m.name == name)

/-- select count from pgmg.migration_hook where name matches and created_at
    is before the start of the run. -/
def hooksCountBefore (db : DB) (startTime : Int) (name : String) : Nat :=
  (db.hooks.filter (fun h => h.name == name && decide (h.createdAt < startTime))).length

/-- The hook-record half of the found query: migration joined with
    migration_hook on name, filtered on (name, hook). -/
def findHookJoin (db : DB) (name hook : String) : Option HookRecordRow :=
  if (findMigRecord db name).isSome then
    db.hooks.find? (fun h => h.name == name && h.hook == hook)
  else none

/-- The found lookup: a stub row for always hooks, otherwise the hook-record
    match unioned with the legacy fallback row (migration recorded on or
    before the cutover with no pre-run hook records). -/
def findLookup (host : String) (startTime : Int) (db : DB) (name hook : String)
    (alwaysFlag : Bool) : Option FoundRec :=
  if alwaysFlag then some ⟨false, none⟩
  else
    match findHookJoin db name hook with
    | some h => some ⟨h.dev, some h.hostname⟩
    | none =>
      match findMigRecord db name with
      | some m =>
        if hooksCountBefore db startTime name = 0 ∧ m.createdAt ≤ legacyCutover
        then some ⟨false, some host⟩ else none
      | none => none

/-- The anyDevHookFound query: a stub for always hooks, otherwise the join
    filtered on (name, dev) = (name, true). -/
def anyDevHookFoundCalc (db : DB) (name : String) (alwaysFlag : Bool) : Bool :=
  alwaysFlag
  || ((findMigRecord db name).isSome
      && db.hooks.any (fun h => h.name == name && h.dev))

/-- getHostName() compared against the optional hostname of the found row
    (JS strict inequality against a possibly undefined field). -/
def hostIsDifferentCalc (host : String) (found : Option FoundRec) : Bool :=
  match found with
  | none => true
  | some f =>
    match f.hostname with
    | none => true
    | some h => h != host

/- ---------------------------------------------------------------------
   Role lifecycle: create_pgmg_objects and teardown_pgmg_objects.
--------------------------------------------------------------------- -/

/-- The privilege set a generated role is created with. -/
inductive RoleKind where
  | superuserNologin : RoleKind
  | restrictedNologin : RoleKind
  deriving DecidableEq, Repr

/-- Which create statement the loop body issues for a target name. -/
def roleKindFor (target mu su : String) : Option RoleKind :=
  if target = mu then some RoleKind.superuserNologin
  else if target = su then some RoleKind.restrictedNologin
  else none

/-- create_pgmg_objects, unrolled over its two loop targets.  Returns the
    roles created in order and the conflict error if one was thrown.  On a
    found role the source either throws (outside dev mode) or returns from
    the whole function (dev mode), skipping any remaining target. -/
def create_pgmg_objects (hasRole : String → Bool) (dev : Bool) (mu su : String) :
    List (String × RoleKind) × Option String :=
  if hasRole mu then
    if dev then ([], none)
    else ([], some ("pgmg managed role already exists: " ++ mu))
  else
    let created1 : List (String × RoleKind) :=
      match roleKindFor mu mu su with
      | some k => [(mu, k)]
      | none => []
    if hasRole su then
      if dev then (created1, none)
      else (created1, some ("pgmg managed role already exists: " ++ su))
    else
      let created2 :=
        match roleKindFor su mu su with
        | some k => created1 ++ [(su, k)]
        | none => created1
      (created2, none)

/-- teardown_pgmg_objects: drop owned by and drop role for each of the two
    generated roles that exists.  Returns the remaining role catalogue and
    the roles dropped in order. -/
def teardown_pgmg_objects (roles : List String) (mu su : String) :
    List String × List String :=
  let step1 : List String × List String :=
    if roles.contains mu then (roles.filter (fun r => r ≠ mu), [mu]) else (roles, [])
  let step2 : List String × List String :=
    if step1.1.contains su then (step1.1.filter (fun r => r ≠ su), [su]) else (step1.1, [])
  (step2.1, step1.2 ++ step2.2)

/- ---------------------------------------------------------------------
   removeDevMigrationRecords and the setupPGMG data fix.
--------------------------------------------------------------------- -/

/-- The dev purge: delete hook records flagged dev, then delete migration
    records dated on or after the cutover whose remaining hook count is
    zero (the foreign key cascade then removes hook rows of deleted
    migrations, vacuously here). -/
def purgeDevState (db : DB) : DB :=
  let hooks1 := db.hooks.filter (fun h => !h.dev)
  let deleteMig : MigRecord → Bool := fun m =>
    decide (legacyCutover ≤ m.createdAt)
    && ((hooks1.filter (fun h => h.name == m.name)).length == 0)
  let migs1 := db.migrations.filter (fun m => !deleteMig m)
  let hooks2 := hooks1.filter (fun h =>
    !(db.migrations.any (fun m => m.name == h.name && deleteMig m)))
  ⟨migs1, hooks2, db.roles⟩

/-- The setupPGMG data fix: for every transaction hook record insert an
    action record with the same name, created_at, dev and hostname, absent
    a conflicting (name, action) row; the insert names no revision column
    so the copy carries a null revision. -/
def setupPGMG (db : DB) : DB :=
  let newRows := (db.hooks.filter (fun h => h.hook == "transaction")).filterMap
    (fun h =>
      if db.hooks.any (fun h2 => h2.name == h.name && h2.hook == "action") then none
      else some { h with hook := "action", revision := none })
  { db with hooks := db.hooks ++ newRows }

/- ---------------------------------------------------------------------
   The scheduler: migration descriptors, hook specifications, the event
   trace, and doHookPhase.
--------------------------------------------------------------------- -/

/-- The description normalisation the scheduler applies before recording:
    split on newlines, trim every line, drop blank lines, rejoin; a falsy
    description becomes null. -/
def normalizeDescription (d : Option String) : Option String :=
  match d with
  | none => none
  | some s =>
    if s = "" then none
    else some (String.intercalate "\n"
      (((s.splitOn "\n").map String.trim).filter (fun x => x ≠ "")))

/-- A loaded migration file: which lifecycle functions it exports and its
    metadata exports.  A Bool export field records whether the function is
    exported; managedUsers is none when the export is absent. -/
structure RawModule where
  name : String
  description : Option String
  action : Bool
  always : Bool
  cluster : Bool
  teardown : Bool
  transaction : Bool
  managedUsers : Option Bool
  deriving DecidableEq, Repr

/-- A hook specification inside a phase, as listed in the order table:
    hook name, always flag, skip flag, rememberChange flag, ifExists flag,
    ifNoMigrationUser flag. -/
structure HookSpec where
  name : String
  alwaysFlag : Bool
  skip : Bool
  rememberChange : Bool
  ifExists : Bool
  ifNoMigrationUser : Bool
  deriving DecidableEq, Repr

/-- The already-parsed configuration the scheduler consumes. -/
structure Config where
  dev : Bool
  tearDownFlag : Bool
  restore : Bool
  dry : Bool
  dryComplete : Bool
  host : String
  startTime : Int
  now : Int
  deriving DecidableEq, Repr

/-- The observable actions of a run: session statements, body invocations
    (migration name, raw export invoked, inside a transaction), role
    mutations, bookkeeping inserts, dry logs and process exits. -/
inductive Ev where
  | resetRole : Ev
  | setRole : String → Ev
  | bodyStart : String → String → Bool → Ev
  | roleCreated : String → RoleKind → Ev
  | roleDropped : String → Ev
  | migInserted : String → Ev
  | hookInserted : String → String → Ev
  | dryLog : String → String → Ev
  | exited : Nat → Ev
  deriving DecidableEq, Repr

/-- Whether the in-memory module (after the managed-users wrapping) carries
    an executable body under a hook key.  When managedUsers is not exported
    as false the wrapper substitutes teardown and cluster bodies. -/
def wrappedHasHook (raw : RawModule) (hook : String) : Bool :=
  if raw.managedUsers == some false then
    if hook == "action" then raw.action
    else if hook == "always" then raw.always
    else if hook == "cluster" then raw.cluster
    else if hook == "teardown" then raw.teardown
    else false
  else
    if hook == "action" then raw.action
    else if hook == "always" then raw.always
    else if hook == "cluster" then true
    else if hook == "teardown" then true
    else false

/-- revision = 2 in the source. -/
def bookkeepingRev : Nat := 2

/-- insert into pgmg.migration on conflict (name) do nothing. -/
def insertMigrationRec (cfg : Config) (db : DB) (path : String) (raw : RawModule) :
    DB × List Ev :=
  if db.migrations.any (fun m => m.name == raw.name) then (db, [])
  else
    ({ db with migrations :=
        db.migrations ++ [⟨raw.name, path, normalizeDescription raw.description, cfg.now⟩] },
     [Ev.migInserted raw.name])

/-- insert into pgmg.migration_hook on conflict (hook, name) do nothing. -/
def insertHookRec (cfg : Config) (db : DB) (name hook : String) : DB × List Ev :=
  if db.hooks.any (fun h => h.name == name && h.hook == hook) then (db, [])
  else
    ({ db with hooks :=
        db.hooks ++ [⟨hook, name, cfg.now, cfg.dev, cfg.host, some bookkeepingRev⟩] },
     [Ev.hookInserted name hook])

/-- Invoking the (wrapped) module body stored under a hook key: returns the
    updated database, the events of the invocation, and whether the body
    threw.  The fails oracle says which raw exports throw when invoked. -/
def execBody (cfg : Config) (fails : String → String → Bool) (raw : RawModule)
    (hook : String) (txFallback : Bool) (mu su : String) (db : DB) :
    DB × List Ev × Bool :=
  if raw.managedUsers == some false then
    if hook == "action" && txFallback then
      (db, [Ev.bodyStart raw.name "transaction" true], fails raw.name "transaction")
    else
      (db, [Ev.bodyStart raw.name hook false], fails raw.name hook)
  else
    if hook == "teardown" then
      if cfg.dev then
        let evs1 := if raw.teardown then [Ev.bodyStart raw.name "teardown" false] else []
        if raw.teardown && fails raw.name "teardown" then (db, evs1, true)
        else
          let td := teardown_pgmg_objects db.roles mu su
          ({ db with roles := td.1 }, evs1 ++ td.2.map Ev.roleDropped, false)
      else (db, [], false)
    else if hook == "cluster" then
      let co := create_pgmg_objects (fun r => db.roles.contains r) cfg.dev mu su
      let db1 := { db with roles := db.roles ++ co.1.map Prod.fst }
      let evs1 := co.1.map (fun p => Ev.roleCreated p.1 p.2)
      if co.2.isSome then (db1, evs1, true)
      else if raw.cluster then
        (db1, evs1 ++ [Ev.bodyStart raw.name "cluster" false], fails raw.name "cluster")
      else (db1, evs1, false)
    else if hook == "action" && txFallback then
      (db, [Ev.bodyStart raw.name "transaction" true], fails raw.name "transaction")
    else
      (db, [Ev.bodyStart raw.name hook false], fails raw.name hook)

/-- The runMigration block of doHookPhase: the dry-complete shortcut, the
    session role discipline around the body, and the bookkeeping inserts.
    An error value is a process exit (the catch handler), carrying the
    database and trace at that point. -/
def runHookBody (cfg : Config) (fails : String → String → Bool) (path : String)
    (raw : RawModule) (mu su : String) (spec : HookSpec) (txFallback : Bool)
    (db : DB) : Except (DB × List Ev) (DB × List Ev) :=
  if cfg.dryComplete then
    if spec.rememberChange then
      let im := insertMigrationRec cfg db path raw
      let ih := insertHookRec cfg im.1 raw.name spec.name
      .ok (ih.1, im.2 ++ ih.2)
    else .ok (db, [])
  else
    let evs1 := Ev.resetRole ::
      (if raw.managedUsers == some true
          && !(spec.name == "cluster" || spec.name == "teardown")
       then [Ev.setRole mu] else [])
    let eb := execBody cfg fails raw spec.name txFallback mu su db
    if eb.2.2 then .error (eb.1, evs1 ++ eb.2.1 ++ [Ev.exited 1])
    else
      let evs2 := evs1 ++ eb.2.1 ++ [Ev.resetRole]
      if spec.rememberChange then
        let im := insertMigrationRec cfg eb.1 path raw
        let ih := insertHookRec cfg im.1 raw.name spec.name
        .ok (ih.1, evs2 ++ im.2 ++ ih.2)
      else .ok (eb.1, evs2)

/-- One hook specification processed for one migration: the skip guard, the
    action lookup with the legacy transaction fallback, the persisted-state
    queries, the decision, and on a positive decision the dry shortcut or
    the runMigration block. -/
def doHookStep (cfg : Config) (fails : String → String → Bool) (path : String)
    (raw : RawModule) (noMigrationUserFound : Bool) (mu su : String)
    (spec : HookSpec) (db : DB) : Except (DB × List Ev) (DB × List Ev) :=
  if spec.skip then .ok (db, [])
  else
    let hasHook := wrappedHasHook raw spec.name
    let txFallback := !hasHook && spec.name == "action" && raw.transaction
    let hasAction := hasHook || txFallback
    let anyMigrationFound := (findMigRecord db raw.name).isSome
    let found := findLookup cfg.host cfg.startTime db raw.name spec.name spec.alwaysFlag
    let sc := shouldContinue cfg.dryComplete hasAction found spec.ifExists cfg.dev
        (wrappedHasHook raw "teardown") anyMigrationFound
        (anyDevHookFoundCalc db raw.name spec.alwaysFlag)
        (spec.name == "cluster") (!(raw.managedUsers == some false))
        spec.ifNoMigrationUser noMigrationUserFound
        (hostIsDifferentCalc cfg.host found) spec.alwaysFlag
    if !sc then .ok (db, [])
    else if cfg.dry then .ok (db, [Ev.dryLog raw.name spec.name])
    else runHookBody cfg fails path raw mu su spec txFallback db

/-- The hook specifications of a phase folded over one migration. -/
def runSpecs (cfg : Config) (fails : String → String → Bool) (path : String)
    (raw : RawModule) (noMigrationUserFound : Bool) (mu su : String) :
    List HookSpec → DB → Except (DB × List Ev) (DB × List Ev)
  | [], db => .ok (db, [])
  | spec :: rest, db =>
    match doHookStep cfg fails path raw noMigrationUserFound mu su spec db with
    | .error e => .error e
    | .ok (db1, evs1) =>
      match runSpecs cfg fails path raw noMigrationUserFound mu su rest db1 with
      | .error (db2, evs2) => .error (db2, evs1 ++ evs2)
      | .ok (db2, evs2) => .ok (db2, evs1 ++ evs2)

/-- One migration processed for a phase: the export checks, the generated
    role names, the role existence snapshot, then the hook specifications
    in order. -/
def doMigration (cfg : Config) (fails : String → String → Bool)
    (specs : List HookSpec) (path : String) (raw : RawModule) (db : DB) :
    Except (DB × List Ev) (DB × List Ev) :=
  if raw.name == "" then .error (db, [Ev.exited 1])
  else if !(raw.action || raw.always || raw.cluster || raw.teardown || raw.transaction) then
    .error (db, [Ev.exited 1])
  else
    let mu := migrationUserName raw.name
    let su := serviceUserName raw.name
    runSpecs cfg fails path raw (!(db.roles.contains mu)) mu su specs db

/-- doHookPhase: every migration in caller order, each processed with the
    full list of the phase's hook specifications before the next migration
    is considered. -/
def doHookPhase (cfg : Config) (fails : String → String → Bool)
    (specs : List HookSpec) :
    List (String × RawModule) → DB → Except (DB × List Ev) (DB × List Ev)
  | [], db => .ok (db, [])
  | (path, raw) :: rest, db =>
    match doMigration cfg fails specs path raw db with
    | .error e => .error e
    | .ok (db1, evs1) =>
      match doHookPhase cfg fails specs rest db1 with
      | .error (db2, evs2) => .error (db2, evs1 ++ evs2)
      | .ok (db2, evs2) => .ok (db2, evs1 ++ evs2)

/-- The clusterMigrate hook group: a teardown pass (skipped outside dev
    mode, ifExists) then the cluster pass (rememberChange,
    ifNoMigrationUser).  HookSpec fields: name, always, skip,
    rememberChange, ifExists, ifNoMigrationUser. -/
def clusterSpecs (dev : Bool) : List HookSpec :=
  [⟨"teardown", false, !dev, false, true, false⟩,
   ⟨"cluster", false, false, true, false, true⟩]

/-- The databaseMigrate hook group: the action pass then the always pass,
    both with rememberChange. -/
def databaseSpecs : List HookSpec :=
  [⟨"action", false, false, true, false, false⟩,
   ⟨"always", true, false, true, false, false⟩]

/-- The devTeardown hook group of teardown mode. -/
def devTeardownSpecs : List HookSpec :=
  [⟨"teardown", false, false, false, true, false⟩]

/-- The whole run over the mode-dependent phase order.  The third component
    is the exit code of a process exit, none meaning the run completed.
    The external restore invocation is outside the model (a tolerated
    best-effort call); dropCreate recreates an empty database while the
    cluster-level role catalogue survives. -/
def runEngine (cfg : Config) (fails : String → String → Bool)
    (migs : List (String × RawModule)) (db : DB) : DB × List Ev × Option Nat :=
  if cfg.dev && cfg.tearDownFlag then
    let db0 := setupPGMG db
    match doHookPhase cfg fails devTeardownSpecs migs db0 with
    | .error (db1, evs1) => (db1, evs1, some 1)
    | .ok (db1, evs1) =>
      let db2 := purgeDevState db1
      match doHookPhase cfg fails [] migs db2 with
      | .error (db3, evs3) => (db3, evs1 ++ evs3, some 1)
      | .ok (db3, evs3) => (db3, evs1 ++ evs3, none)
  else
    let db0 := if cfg.restore then { db with migrations := [], hooks := [] } else db
    let db1 := setupPGMG db0
    match doHookPhase cfg fails (clusterSpecs cfg.dev) migs db1 with
    | .error (db2, evs2) => (db2, evs2, some 1)
    | .ok (db2, evs2) =>
      match doHookPhase cfg fails databaseSpecs migs db2 with
      | .error (db3, evs3) => (db3, evs2 ++ evs3, some 1)
      | .ok (db3, evs3) => (db3, evs2 ++ evs3, none)

/- ---------------------------------------------------------------------
   Theorems.
--------------------------------------------------------------------- -/

/-- Claim C1, counterexample: the decision rule as the spec states it
    (dry-complete, or a body together with one of the four listed branches)
    disagrees with the source expression on an always hook that has a body:
    there the source decides true through its fifth disjunct while every
    listed branch is false.  The inputs are those the scheduler computes
    for an always hook: the found row and the dev-hook row are the stubs. -/
theorem shouldContinue_always_hook_counterexample :
    shouldContinue false true (some ⟨false, none⟩) false false false false true
        false true false true true true = true
  ∧ shouldContinueClaimed false true (some ⟨false, none⟩) false false false false
        true false true false true true = false := by
  constructor <;> decide

/-- Claim C1 amended: the hook decision returns true exactly when dry-complete
    is set, or an executable body exists and one of the spec's four branches
    holds, or (fifth branch) an executable body exists and the hook carries
    the always flag. -/
theorem shouldContinue_eq_claimed_or_always (dryComplete hasAction : Bool)
    (found : Option FoundRec) (ifExists devMode hasTeardown anyMigrationFound
    anyDevHookFound isClusterHook autoMigrationUserEnabled ifNoMigrationUser
    noMigrationUserFound hostIsDifferent alwaysFlag : Bool) :
    shouldContinue dryComplete hasAction found ifExists devMode hasTeardown
        anyMigrationFound anyDevHookFound isClusterHook autoMigrationUserEnabled
        ifNoMigrationUser noMigrationUserFound hostIsDifferent alwaysFlag
      = (shouldContinueClaimed dryComplete hasAction found ifExists devMode
           hasTeardown anyMigrationFound anyDevHookFound isClusterHook
           autoMigrationUserEnabled ifNoMigrationUser noMigrationUserFound
           hostIsDifferent
         || (hasAction && alwaysFlag)) := by
  unfold shouldContinue shouldContinueClaimed
  generalize coreBranches found ifExists devMode hasTeardown anyMigrationFound
      anyDevHookFound isClusterHook autoMigrationUserEnabled ifNoMigrationUser
      noMigrationUserFound hostIsDifferent = c
  revert dryComplete hasAction alwaysFlag c
  decide

/-- Claim C7, counterexample: the role namer is not collision-avoiding; two
    distinct migration names that differ only in a space versus an
    underscore derive the same role-name pair. -/
theorem rolePair_collision :
    rolePair "a b" = rolePair "a_b" ∧ "a b" ≠ "a_b" := by
  constructor <;> decide

/-- String append is left-cancellative. -/
theorem string_append_left_cancel {p s t : String} (h : p ++ s = p ++ t) :
    s = t := by
  have hd : p.data ++ s.data = p.data ++ t.data := by
    have := congrArg String.data h
    simpa [String.data_append] using this
  exact String.ext (List.append_cancel_left hd)

/-- Claim C7 amended: deriving the two role names is a deterministic pure
    function of the migration name alone (the normalisation pipeline then
    the two fixed literals), and two names receive the same role-name pair
    exactly when they have the same normalised slug; distinct names with
    equal slugs collide. -/
theorem rolePair_eq_iff (n1 n2 : String) :
    rolePair n1 = rolePair n2 ↔ slugify n1 = slugify n2 := by
  constructor
  · intro h
    have h1 : migrationUserName n1 = migrationUserName n2 :=
      congrArg Prod.fst h
    exact string_append_left_cancel (p := "pgmg_migration_") h1
  · intro h
    simp [rolePair, migrationUserName, serviceUserName, h]

/-- Claim C3, counterexample: in development mode, when the migration role
    already exists but the service role does not, the source returns from
    the whole ensure step without checking or creating the service role —
    the created list is empty although the service role is absent. -/
theorem create_pgmg_objects_dev_skips_service :
    create_pgmg_objects (fun r => r == "pgmg_migration_m") true
        "pgmg_migration_m" "pgmg_service_m" = ([], none)
  ∧ (fun r => r == "pgmg_migration_m") "pgmg_service_m" = false := by
  constructor <;> decide

/-- Claim C3 amended: both roles absent creates both (the migration role as
    superuser non-login, the service role restricted non-login); an existing
    role outside dev mode raises the conflict error with no further creation
    past those already made; an existing role in dev mode makes the whole
    ensure step return at once, so when the migration role pre-exists the
    service role is neither checked nor created. -/
theorem create_pgmg_objects_cases (hasRole : String → Bool) (dev : Bool)
    (mu su : String) (hms : mu ≠ su) :
    (hasRole mu = false → hasRole su = false →
      create_pgmg_objects hasRole dev mu su =
        ([(mu, RoleKind.superuserNologin), (su, RoleKind.restrictedNologin)], none))
  ∧ (hasRole mu = true → dev = false →
      create_pgmg_objects hasRole dev mu su =
        ([], some ("pgmg managed role already exists: " ++ mu)))
  ∧ (hasRole mu = true → dev = true →
      create_pgmg_objects hasRole dev mu su = ([], none))
  ∧ (hasRole mu = false → hasRole su = true → dev = false →
      create_pgmg_objects hasRole dev mu su =
        ([(mu, RoleKind.superuserNologin)],
         some ("pgmg managed role already exists: " ++ su)))
  ∧ (hasRole mu = false → hasRole su = true → dev = true →
      create_pgmg_objects hasRole dev mu su =
        ([(mu, RoleKind.superuserNologin)], none)) := by
  refine ⟨?_, ?_, ?_, ?_, ?_⟩ <;> intros <;>
    simp_all [create_pgmg_objects, roleKindFor, hms, Ne.symm hms]

/-- Claim C3 witness: a fresh server in production mode creates both roles. -/
theorem create_pgmg_objects_cases_witness :
    create_pgmg_objects (fun _ => false) false "a" "b" =
      ([("a", RoleKind.superuserNologin), ("b", RoleKind.restrictedNologin)], none) :=
  (create_pgmg_objects_cases (fun _ => false) false "a" "b" (by decide)).1 rfl rfl

/-- Claim C5: for a migration recorded before the cutover with no persisted
    hook records at all, the found lookup of every hook yields the fallback
    row — already run, dev false, hostname the current host — so no hook of
    the migration is treated as never recorded. -/
theorem findLookup_legacy (host : String) (startTime : Int) (db : DB)
    (name hk : String) (m : MigRecord)
    (hm : findMigRecord db name = some m)
    (hcut : m.createdAt < legacyCutover)
    (hzero : ∀ h ∈ db.hooks, h.name ≠ name) :
    findLookup host startTime db name hk false = some ⟨false, some host⟩ := by
  have hfind : db.hooks.find? (fun h => h.name == name && h.hook == hk) = none := by
    rw [List.find?_eq_none]
    intro h hh
    simp [hzero h hh]
  have hcount : hooksCountBefore db startTime name = 0 := by
    unfold hooksCountBefore
    rw [List.length_eq_zero, List.filter_eq_nil_iff]
    intro h hh
    simp [hzero h hh]
  simp [findLookup, findHookJoin, hm, hfind, hcount, le_of_lt hcut]

/-- Claim C5 witness: a concrete pre-cutover migration with no hook rows. -/
theorem findLookup_legacy_witness :
    findLookup "hostA" 5 ⟨[⟨"old", "f", none, 0⟩], [], []⟩ "old" "action" false
      = some ⟨false, some "hostA"⟩ :=
  findLookup_legacy "hostA" 5 ⟨[⟨"old", "f", none, 0⟩], [], []⟩ "old" "action"
    ⟨"old", "f", none, 0⟩ (by decide) (by decide) (by simp)

/-- The remaining non-dev hook rows of a name are exactly none when every
    hook row of that name is flagged dev. -/
theorem purge_key (db : DB) (m : MigRecord) :
    ((db.hooks.filter (fun h => !h.dev)).filter
        (fun h => h.name == m.name) = [])
      ↔ (∀ h ∈ db.hooks, h.name = m.name → h.dev = true) := by
  simp only [List.filter_eq_nil_iff, List.mem_filter, Bool.and_eq_true,
    Bool.not_eq_true', beq_iff_eq, and_imp]
  constructor
  · intro hc h hh hn
    by_contra hdev
    exact hc h hh (Bool.eq_false_iff.mpr hdev) hn
  · intro hc h hh hdev hn
    simp [hc h hh hn] at hdev

/-- Membership in the migration table after the dev purge: kept exactly when
    not (dated on or after the cutover with only dev-flagged hook rows). -/
theorem purgeDevState_mig_mem (db : DB) (m : MigRecord) (hm : m ∈ db.migrations) :
    m ∈ (purgeDevState db).migrations ↔
      ¬(legacyCutover ≤ m.createdAt
        ∧ ∀ h ∈ db.hooks, h.name = m.name → h.dev = true) := by
  simp only [purgeDevState, List.mem_filter, hm, true_and, Bool.not_eq_true',
    Bool.and_eq_false_iff, decide_eq_false_iff_not, beq_eq_false_iff_ne, ne_eq,
    List.length_eq_zero, purge_key db m, not_and_or]

/-- Claim C6: the teardown-mode purge removes every dev-flagged hook record,
    then removes exactly the migration records dated on or after the cutover
    whose remaining hook-record count is zero, and keeps every migration
    record dated before the cutover, hook records or not.  The source
    boundary comparisons are created_at on or after the cutover for deletion
    and strictly before for the legacy keep. -/
theorem purgeDevState_spec (db : DB) :
    (∀ h ∈ db.hooks, h.dev = true → h ∉ (purgeDevState db).hooks)
  ∧ (∀ m ∈ db.migrations,
      (m ∈ (purgeDevState db).migrations ↔
        ¬(legacyCutover ≤ m.createdAt
          ∧ ∀ h ∈ db.hooks, h.name = m.name → h.dev = true)))
  ∧ (∀ m ∈ db.migrations, m.createdAt < legacyCutover →
      m ∈ (purgeDevState db).migrations) := by
  refine ⟨?_, fun m hm => purgeDevState_mig_mem db m hm, fun m hm hlt => ?_⟩
  · intro h hh hdev
    simp [purgeDevState, List.mem_filter, hdev]
  · rw [purgeDevState_mig_mem db m hm]
    intro hc
    exact absurd hc.1 (not_le.mpr hlt)

/-- Claim C6 witness: a pre-cutover record with zero hook rows survives the
    purge of a database holding it together with a dev run's records. -/
theorem purgeDevState_spec_witness :
    (⟨"legacy", "f", none, 0⟩ : MigRecord) ∈
      (purgeDevState ⟨[⟨"legacy", "f", none, 0⟩, ⟨"new", "g", none, 30000000⟩],
        [⟨"action", "new", 30000001, true, "h", some 2⟩], []⟩).migrations :=
  (purgeDevState_spec ⟨[⟨"legacy", "f", none, 0⟩, ⟨"new", "g", none, 30000000⟩],
      [⟨"action", "new", 30000001, true, "h", some 2⟩], []⟩).2.2
    ⟨"legacy", "f", none, 0⟩ (by decide) (by decide)

/-- The events a runMigration block produced, whether or not it exited. -/
def resultEvents (r : Except (DB × List Ev) (DB × List Ev)) : List Ev :=
  match r with
  | .ok p => p.2
  | .error p => p.2

/-- For a hook other than cluster and teardown, invoking the module body
    touches no roles: it emits one bodyStart event (under the transaction
    name and flag when the legacy fallback is active) and throws when the
    fails oracle says the raw export throws. -/
theorem execBody_plain (cfg : Config) (fails : String → String → Bool)
    (raw : RawModule) (hook : String) (txFallback : Bool) (mu su : String)
    (db : DB) (h1 : hook ≠ "cluster") (h2 : hook ≠ "teardown") :
    execBody cfg fails raw hook txFallback mu su db =
      (db,
       [Ev.bodyStart raw.name
          (if hook == "action" && txFallback then "transaction" else hook)
          (hook == "action" && txFallback)],
       fails raw.name
          (if hook == "action" && txFallback then "transaction" else hook)) := by
  have e1 : (hook == "cluster") = false := beq_eq_false_iff_ne.mpr h1
  have e2 : (hook == "teardown") = false := beq_eq_false_iff_ne.mpr h2
  by_cases hmu : (raw.managedUsers == some false) = true <;>
    by_cases htx : (hook == "action" && txFallback) = true <;>
      simp [execBody, hmu, htx, e1, e2]

/-- The runMigration block for a hook other than cluster and teardown,
    outside dry-complete mode, as one equation: the session discipline
    around the single body invocation, the exit on a thrown body, and the
    two bookkeeping inserts on success. -/
theorem runHookBody_plain_eq (cfg : Config) (fails : String → String → Bool)
    (path : String) (raw : RawModule) (mu su : String) (spec : HookSpec)
    (txFallback : Bool) (db : DB)
    (hdc : cfg.dryComplete = false)
    (h1 : spec.name ≠ "cluster") (h2 : spec.name ≠ "teardown") :
    runHookBody cfg fails path raw mu su spec txFallback db =
      (if fails raw.name
          (if spec.name == "action" && txFallback then "transaction" else spec.name) then
        .error (db,
          Ev.resetRole ::
            ((if raw.managedUsers == some true then [Ev.setRole mu] else [])
              ++ [Ev.bodyStart raw.name
                    (if spec.name == "action" && txFallback then "transaction" else spec.name)
                    (spec.name == "action" && txFallback),
                  Ev.exited 1]))
       else
        .ok ((if spec.rememberChange then
                (insertHookRec cfg (insertMigrationRec cfg db path raw).1
                  raw.name spec.name).1 else db),
          Ev.resetRole ::
            ((if raw.managedUsers == some true then [Ev.setRole mu] else [])
              ++ [Ev.bodyStart raw.name
                    (if spec.name == "action" && txFallback then "transaction" else spec.name)
                    (spec.name == "action" && txFallback),
                  Ev.resetRole]
              ++ (if spec.rememberChange then
                    (insertMigrationRec cfg db path raw).2
                      ++ (insertHookRec cfg (insertMigrationRec cfg db path raw).1
                            raw.name spec.name).2 else [])))) := by
  have e1 : (spec.name == "cluster") = false := beq_eq_false_iff_ne.mpr h1
  have e2 : (spec.name == "teardown") = false := beq_eq_false_iff_ne.mpr h2
  simp only [runHookBody, hdc, Bool.false_eq_true, if_false,
    execBody_plain cfg fails raw spec.name txFallback mu su db h1 h2,
    e1, e2, Bool.or_self, Bool.not_false, Bool.and_true]
  by_cases hf : fails raw.name
      (if spec.name == "action" && txFallback then "transaction" else spec.name) = true <;>
    by_cases hr : spec.rememberChange = true <;>
      simp_all [List.append_assoc]

/-- Claim C2, counterexample: the claimed activation discipline fails twice
    on the source.  First, a migration that does not export managedUsers at
    all — so managed users are not explicitly disabled — gets no set role
    statement around its action body.  Second, with managedUsers exported
    true, a failing body is followed by the process exit and no reset of the
    session identity. -/
theorem runHookBody_activation_counterexample :
    (Ev.setRole "mu" ∉ resultEvents (runHookBody
        ⟨false, false, false, false, false, "hostA", 0, 1⟩ (fun _ _ => false) "f1"
        ⟨"m1", none, true, false, false, false, false, none⟩ "mu" "su"
        ⟨"action", false, false, false, false, false⟩ false ⟨[], [], []⟩))
  ∧ resultEvents (runHookBody
        ⟨false, false, false, false, false, "hostA", 0, 1⟩ (fun _ _ => true) "f1"
        ⟨"m1", none, true, false, false, false, false, some true⟩ "mu" "su"
        ⟨"action", false, false, false, false, false⟩ false ⟨[], [], []⟩)
      = [Ev.resetRole, Ev.setRole "mu", Ev.bodyStart "m1" "action" false,
         Ev.exited 1] := by
  constructor <;> decide

/-- Claim C2 amended: for hooks other than cluster and teardown (outside the
    dry-complete shortcut), the scheduler issues reset role and then — only
    when the migration exports managedUsers as true — activates the
    migration role before invoking the body; when the body returns it resets
    the session identity and appends the bookkeeping events; when the body
    throws the process exits with no further reset; and when managedUsers is
    anything other than an exported true (including the default absent
    export) no role activation is issued at all. -/
theorem runHookBody_activation (cfg : Config) (fails : String → String → Bool)
    (path : String) (raw : RawModule) (mu su : String) (spec : HookSpec)
    (txFallback : Bool) (db : DB)
    (hdc : cfg.dryComplete = false)
    (h1 : spec.name ≠ "cluster") (h2 : spec.name ≠ "teardown") :
    (fails raw.name
        (if spec.name == "action" && txFallback then "transaction" else spec.name) = false →
      ∃ db2 tail,
        runHookBody cfg fails path raw mu su spec txFallback db =
          .ok (db2,
            Ev.resetRole ::
              ((if raw.managedUsers == some true then [Ev.setRole mu] else [])
                ++ [Ev.bodyStart raw.name
                      (if spec.name == "action" && txFallback then "transaction" else spec.name)
                      (spec.name == "action" && txFallback),
                    Ev.resetRole]
                ++ tail)))
  ∧ (fails raw.name
        (if spec.name == "action" && txFallback then "transaction" else spec.name) = true →
      runHookBody cfg fails path raw mu su spec txFallback db =
        .error (db,
          Ev.resetRole ::
            ((if raw.managedUsers == some true then [Ev.setRole mu] else [])
              ++ [Ev.bodyStart raw.name
                    (if spec.name == "action" && txFallback then "transaction" else spec.name)
                    (spec.name == "action" && txFallback),
                  Ev.exited 1])))
  ∧ (raw.managedUsers ≠ some true →
      ∀ s, Ev.setRole s ∉
        resultEvents (runHookBody cfg fails path raw mu su spec txFallback db)) := by
  have H := runHookBody_plain_eq cfg fails path raw mu su spec txFallback db hdc h1 h2
  have hmig : ∀ s, Ev.setRole s ∉ (insertMigrationRec cfg db path raw).2 := by
    intro s
    unfold insertMigrationRec
    split <;> simp
  have hhk : ∀ s, Ev.setRole s ∉
      (insertHookRec cfg (insertMigrationRec cfg db path raw).1 raw.name spec.name).2 := by
    intro s
    unfold insertHookRec
    split <;> simp
  refine ⟨?_, ?_, ?_⟩
  · intro hf
    rw [H]
    simp only [hf, Bool.false_eq_true, if_false]
    exact ⟨_, _, rfl⟩
  · intro hf
    rw [H]
    simp only [hf, if_true]
  · intro hmu s
    have emu : (raw.managedUsers == some true) = false := beq_eq_false_iff_ne.mpr hmu
    rw [H]
    by_cases hf : fails raw.name
        (if spec.name == "action" && txFallback then "transaction" else spec.name) = true <;>
      by_cases hr : spec.rememberChange = true <;>
        simp_all [resultEvents, emu]

/-- Claim C2 witness: a migration exporting managedUsers true and a
    succeeding action body sees reset role, set role, the body, reset
    role. -/
theorem runHookBody_activation_witness :
    ∃ db2 tail,
      runHookBody ⟨false, false, false, false, false, "hostA", 0, 1⟩ (fun _ _ => false)
          "f1" ⟨"m1", none, true, false, false, false, false, some true⟩ "mu" "su"
          ⟨"action", false, false, false, false, false⟩ false ⟨[], [], []⟩ =
        .ok (db2,
          Ev.resetRole :: ([Ev.setRole "mu"]
            ++ [Ev.bodyStart "m1" "action" false, Ev.resetRole] ++ tail)) := by
  have h := (runHookBody_activation ⟨false, false, false, false, false, "hostA", 0, 1⟩
      (fun _ _ => false) "f1" ⟨"m1", none, true, false, false, false, false, some true⟩
      "mu" "su" ⟨"action", false, false, false, false, false⟩ false ⟨[], [], []⟩
      rfl (by decide) (by decide)).1 rfl
  simpa using h

/-- The hook-record insert always leaves a row under the requested key. -/
theorem insertHookRec_exists (cfg : Config) (db : DB) (n hk : String) :
    ∃ r ∈ (insertHookRec cfg db n hk).1.hooks, r.name = n ∧ r.hook = hk := by
  unfold insertHookRec
  split
  · next hany =>
    obtain ⟨r, hr, hp⟩ := List.any_eq_true.mp hany
    exact ⟨r, hr, by simpa using hp.symm⟩
  · next hany =>
    refine ⟨⟨hk, n, cfg.now, cfg.dev, cfg.host, some bookkeepingRev⟩, ?_, rfl, rfl⟩
    simp

/-- The migration-record insert does not touch the hook table. -/
theorem insertMigrationRec_hooks (cfg : Config) (db : DB) (p : String) (raw : RawModule) :
    (insertMigrationRec cfg db p raw).1.hooks = db.hooks := by
  unfold insertMigrationRec
  split <;> rfl

/-- Schema setup copies a transaction hook record to an absent action key. -/
theorem setupPGMG_copies_transaction (db : DB) (t : HookRecordRow) (htm : t ∈ db.hooks)
    (htt : t.hook = "transaction")
    (hno : ∀ a ∈ db.hooks, a.name = t.name → a.hook ≠ "action") :
    (⟨"action", t.name, t.createdAt, t.dev, t.hostname, none⟩ : HookRecordRow)
      ∈ (setupPGMG db).hooks := by
  unfold setupPGMG
  simp only [List.mem_append]
  right
  rw [List.mem_filterMap]
  refine ⟨t, ?_, ?_⟩
  · rw [List.mem_filter]
    exact ⟨htm, by simp [htt]⟩
  · have hany : (db.hooks.any (fun h2 => h2.name == t.name && h2.hook == "action")) = false := by
      rw [List.any_eq_false]
      intro a ha
      simp only [Bool.and_eq_true, beq_iff_eq, not_and]
      intro hn
      exact hno a ha hn
    simp [hany]

/-- Every row schema setup adds comes from a transaction row with no
    pre-existing action row of the same name, copied field for field. -/
theorem setupPGMG_new_rows_from_transaction (db : DB) (r : HookRecordRow)
    (hr : r ∈ (setupPGMG db).hooks) (hnr : r ∉ db.hooks) :
    r.hook = "action" ∧ r.revision = none
      ∧ ∃ t ∈ db.hooks, t.hook = "transaction" ∧ t.name = r.name
          ∧ t.createdAt = r.createdAt ∧ t.dev = r.dev ∧ t.hostname = r.hostname := by
  unfold setupPGMG at hr
  simp only [List.mem_append] at hr
  rcases hr with hr | hr
  · exact absurd hr hnr
  · rw [List.mem_filterMap] at hr
    obtain ⟨t, ht, hf⟩ := hr
    rw [List.mem_filter] at ht
    obtain ⟨htm, htt⟩ := ht
    by_cases hany : (db.hooks.any (fun h2 => h2.name == t.name && h2.hook == "action")) = true
    · simp [hany] at hf
    · simp only [Bool.not_eq_true] at hany
      simp only [hany, Bool.false_eq_true, if_false, Option.some.injEq] at hf
      subst hf
      exact ⟨rfl, rfl, t, htm, by simpa using htt, rfl, rfl, rfl, rfl⟩

/-- The action pass of a migration that exports transaction but no action:
    the legacy fallback supplies the body, which is invoked under the
    transaction name inside a database transaction and recorded under the
    action key. -/
theorem doHookStep_transaction_fallback (cfg : Config) (fails : String → String → Bool)
    (path : String) (raw : RawModule) (noMig : Bool) (mu su : String) (db : DB)
    (ha : raw.action = false) (ht : raw.transaction = true)
    (hdry : cfg.dry = false) (hdc : cfg.dryComplete = false)
    (hf : fails raw.name "transaction" = false)
    (hfound : findLookup cfg.host cfg.startTime db raw.name "action" false = none) :
    ∃ db2 evs,
      doHookStep cfg fails path raw noMig mu su
          ⟨"action", false, false, true, false, false⟩ db = .ok (db2, evs)
      ∧ Ev.bodyStart raw.name "transaction" true ∈ evs
      ∧ ∃ r ∈ db2.hooks, r.name = raw.name ∧ r.hook = "action" := by
  have hwh : wrappedHasHook raw "action" = false := by
    unfold wrappedHasHook
    split <;> simp [ha]
  have hsc : shouldContinue false true
      (findLookup cfg.host cfg.startTime db raw.name "action" false) false cfg.dev
      (wrappedHasHook raw "teardown") ((findMigRecord db raw.name).isSome)
      (anyDevHookFoundCalc db raw.name false) false
      (!(raw.managedUsers == some false)) false noMig
      (hostIsDifferentCalc cfg.host
        (findLookup cfg.host cfg.startTime db raw.name "action" false)) false = true := by
    rw [hfound]
    simp [shouldContinue, coreBranches]
  simp only [doHookStep, Bool.false_eq_true, if_false, hwh, ht, Bool.not_false,
    Bool.and_true, Bool.and_self, hdry, hdc,
    show (("action" : String) == "action") = true from rfl,
    show (("action" : String) == "cluster") = false from rfl,
    Bool.true_and, Bool.false_or, Bool.or_false, hsc, Bool.not_true, if_false]
  simp only [runHookBody, hdc, Bool.false_eq_true, if_false,
    execBody_plain cfg fails raw "action" true mu su db (by decide) (by decide),
    show (("action" : String) == "action") = true from rfl,
    show (("action" : String) == "cluster") = false from rfl,
    show (("action" : String) == "teardown") = false from rfl,
    Bool.true_and, Bool.and_true, Bool.or_self, Bool.not_false, if_true, hf]
  refine ⟨_, _, rfl, ?_, ?_⟩
  · simp
  · exact insertHookRec_exists cfg (insertMigrationRec cfg db path raw).1 raw.name "action"

/-- Claim C10: legacy transaction migrations map onto the action hook.  At
    schema setup every transaction hook record yields an action record with
    the same name, created_at, dev and hostname when none exists, and every
    row setup adds arises that way; at run time a migration exporting
    transaction but no action has the transaction export invoked as the
    action hook inside a database transaction and recorded under the action
    key. -/
theorem transaction_hooks_as_action :
    (∀ (db : DB) (t : HookRecordRow), t ∈ db.hooks → t.hook = "transaction" →
      (∀ a ∈ db.hooks, a.name = t.name → a.hook ≠ "action") →
      (⟨"action", t.name, t.createdAt, t.dev, t.hostname, none⟩ : HookRecordRow)
        ∈ (setupPGMG db).hooks)
  ∧ (∀ (db : DB) (r : HookRecordRow), r ∈ (setupPGMG db).hooks → r ∉ db.hooks →
      r.hook = "action" ∧ r.revision = none
        ∧ ∃ t ∈ db.hooks, t.hook = "transaction" ∧ t.name = r.name
            ∧ t.createdAt = r.createdAt ∧ t.dev = r.dev ∧ t.hostname = r.hostname)
  ∧ (∀ (cfg : Config) (fails : String → String → Bool) (path : String)
        (raw : RawModule) (noMig : Bool) (mu su : String) (db : DB),
      raw.action = false → raw.transaction = true →
      cfg.dry = false → cfg.dryComplete = false →
      fails raw.name "transaction" = false →
      findLookup cfg.host cfg.startTime db raw.name "action" false = none →
      ∃ db2 evs,
        doHookStep cfg fails path raw noMig mu su
            ⟨"action", false, false, true, false, false⟩ db = .ok (db2, evs)
        ∧ Ev.bodyStart raw.name "transaction" true ∈ evs
        ∧ ∃ r ∈ db2.hooks, r.name = raw.name ∧ r.hook = "action") :=
  ⟨setupPGMG_copies_transaction,
   setupPGMG_new_rows_from_transaction,
   fun cfg fails path raw noMig mu su db ha ht hdry hdc hf hfound =>
     doHookStep_transaction_fallback cfg fails path raw noMig mu su db
       ha ht hdry hdc hf hfound⟩

/-- Claim C10 witness: a concrete transaction row is copied to the action
    key by schema setup. -/
theorem transaction_hooks_as_action_witness :
    (⟨"action", "t1", 10, false, "h", none⟩ : HookRecordRow) ∈
      (setupPGMG ⟨[⟨"t1", "f", none, 10⟩],
        [⟨"transaction", "t1", 10, false, "h", none⟩], []⟩).hooks :=
  transaction_hooks_as_action.1
    ⟨[⟨"t1", "f", none, 10⟩], [⟨"transaction", "t1", 10, false, "h", none⟩], []⟩
    ⟨"transaction", "t1", 10, false, "h", none⟩ (by decide) (by decide) (by decide)

/- ---------------------------------------------------------------------
   Structural lemmas for the abort and persistence arguments.
--------------------------------------------------------------------- -/

/-- What the migration-record insert does: roles untouched, rows only added,
    and the events it emits record exactly what it inserted. -/
theorem insertMigrationRec_spec (cfg : Config) (db : DB) (p : String) (raw : RawModule) :
    (insertMigrationRec cfg db p raw).1.roles = db.roles
  ∧ (∀ m ∈ db.migrations, m ∈ (insertMigrationRec cfg db p raw).1.migrations)
  ∧ (∀ n, Ev.migInserted n ∈ (insertMigrationRec cfg db p raw).2 →
      ∃ m ∈ (insertMigrationRec cfg db p raw).1.migrations, m.name = n)
  ∧ (∀ e ∈ (insertMigrationRec cfg db p raw).2, e = Ev.migInserted raw.name) := by
  unfold insertMigrationRec
  split
  · simp
  · refine ⟨rfl, ?_, ?_, ?_⟩
    · intro m hm
      simp [hm]
    · intro n hn
      simp only [List.mem_singleton] at hn
      cases hn
      exact ⟨⟨raw.name, p, normalizeDescription raw.description, cfg.now⟩, by simp, rfl⟩
    · intro e he
      simpa using he

/-- What the hook-record insert does: roles and migrations untouched, rows
    only added, and the events it emits record exactly what it inserted. -/
theorem insertHookRec_spec (cfg : Config) (db : DB) (n hk : String) :
    (insertHookRec cfg db n hk).1.roles = db.roles
  ∧ (insertHookRec cfg db n hk).1.migrations = db.migrations
  ∧ (∀ r ∈ db.hooks, r ∈ (insertHookRec cfg db n hk).1.hooks)
  ∧ (∀ e ∈ (insertHookRec cfg db n hk).2, e = Ev.hookInserted n hk) := by
  unfold insertHookRec
  split
  · simp
  · refine ⟨rfl, rfl, ?_, ?_⟩
    · intro r hr
      simp [hr]
    · intro e he
      simpa using he

/-- Invoking a body never touches the bookkeeping tables. -/
theorem execBody_records (cfg : Config) (fails : String → String → Bool)
    (raw : RawModule) (hook : String) (tx : Bool) (mu su : String) (db : DB) :
    (execBody cfg fails raw hook tx mu su db).1.hooks = db.hooks
  ∧ (execBody cfg fails raw hook tx mu su db).1.migrations = db.migrations := by
  unfold execBody
  repeat' split
  all_goals
    first
    | (refine ⟨rfl, rfl⟩)
    | (by_cases hco : (create_pgmg_objects (fun r => decide (r ∈ db.roles)) cfg.dev mu su).2.isSome = true <;>
        simp [hco])

/-- Invoking a body emits only body, role and drop events: no exit, no
    bookkeeping insert, no dry log, no session role statement. -/
theorem execBody_events (cfg : Config) (fails : String → String → Bool)
    (raw : RawModule) (hook : String) (tx : Bool) (mu su : String) (db : DB) :
    ∀ e ∈ (execBody cfg fails raw hook tx mu su db).2.1,
      (∀ k, e ≠ Ev.exited k)
      ∧ (∀ n h, e ≠ Ev.hookInserted n h)
      ∧ (∀ n, e ≠ Ev.migInserted n)
      ∧ (∀ n s, e ≠ Ev.dryLog n s)
      ∧ (∀ s, e ≠ Ev.setRole s)
      ∧ e ≠ Ev.resetRole := by
  intro e he
  unfold execBody at he
  by_cases hco : (create_pgmg_objects (fun r => decide (r ∈ db.roles)) cfg.dev mu su).2.isSome = true <;>
    (repeat' split at he) <;>
    simp only [hco, if_true, Bool.false_eq_true, if_false, List.mem_append, List.mem_map,
      List.mem_singleton, List.mem_cons, List.not_mem_nil, or_false, false_or] at he <;>
    aesop


theorem runHookBody_eq_general (cfg : Config) (fails : String → String → Bool)
    (path : String) (raw : RawModule) (mu su : String) (spec : HookSpec)
    (tx : Bool) (db : DB) :
    runHookBody cfg fails path raw mu su spec tx db =
      (if cfg.dryComplete then
        (if spec.rememberChange then
          .ok ((insertHookRec cfg (insertMigrationRec cfg db path raw).1 raw.name spec.name).1,
            (insertMigrationRec cfg db path raw).2
              ++ (insertHookRec cfg (insertMigrationRec cfg db path raw).1 raw.name spec.name).2)
         else .ok (db, []))
       else if (execBody cfg fails raw spec.name tx mu su db).2.2 then
        .error ((execBody cfg fails raw spec.name tx mu su db).1,
          (Ev.resetRole ::
            (if raw.managedUsers == some true
                && !(spec.name == "cluster" || spec.name == "teardown")
             then [Ev.setRole mu] else []))
            ++ (execBody cfg fails raw spec.name tx mu su db).2.1 ++ [Ev.exited 1])
       else if spec.rememberChange then
        .ok ((insertHookRec cfg
              (insertMigrationRec cfg (execBody cfg fails raw spec.name tx mu su db).1 path raw).1
              raw.name spec.name).1,
          ((Ev.resetRole ::
            (if raw.managedUsers == some true
                && !(spec.name == "cluster" || spec.name == "teardown")
             then [Ev.setRole mu] else []))
            ++ (execBody cfg fails raw spec.name tx mu su db).2.1 ++ [Ev.resetRole])
            ++ (insertMigrationRec cfg (execBody cfg fails raw spec.name tx mu su db).1 path raw).2
            ++ (insertHookRec cfg
                  (insertMigrationRec cfg (execBody cfg fails raw spec.name tx mu su db).1 path raw).1
                  raw.name spec.name).2)
       else
        .ok ((execBody cfg fails raw spec.name tx mu su db).1,
          (Ev.resetRole ::
            (if raw.managedUsers == some true
                && !(spec.name == "cluster" || spec.name == "teardown")
             then [Ev.setRole mu] else []))
            ++ (execBody cfg fails raw spec.name tx mu su db).2.1 ++ [Ev.resetRole])) := by
  unfold runHookBody
  by_cases hdc : cfg.dryComplete = true <;>
    by_cases hrc : spec.rememberChange = true <;>
      by_cases hfl : (execBody cfg fails raw spec.name tx mu su db).2.2 = true <;>
        simp [hdc, hrc, hfl, List.append_assoc]

theorem runHookBody_ok_shape (cfg : Config) (fails : String → String → Bool)
    (path : String) (raw : RawModule) (mu su : String) (spec : HookSpec)
    (tx : Bool) (db db' : DB) (evs : List Ev)
    (h : runHookBody cfg fails path raw mu su spec tx db = .ok (db', evs)) :
    (∀ k, Ev.exited k ∉ evs)
  ∧ (∀ r ∈ db.hooks, r ∈ db'.hooks)
  ∧ (∀ m ∈ db.migrations, m ∈ db'.migrations)
  ∧ (∀ n hk, Ev.hookInserted n hk ∈ evs → ∃ r ∈ db'.hooks, r.name = n ∧ r.hook = hk)
  ∧ (∀ n, Ev.migInserted n ∈ evs → ∃ m ∈ db'.migrations, m.name = n)
  ∧ (spec.rememberChange = false →
      ∀ n hk, Ev.hookInserted n hk ∉ evs ∧ Ev.migInserted n ∉ evs) := by
  classical
  rw [runHookBody_eq_general] at h
  have hER := execBody_records cfg fails raw spec.name tx mu su db
  have hEE := execBody_events cfg fails raw spec.name tx mu su db
  have memPre : ∀ e, e ∈ (Ev.resetRole ::
        (if raw.managedUsers == some true
            && !(spec.name == "cluster" || spec.name == "teardown")
         then [Ev.setRole mu] else []))
        ++ (execBody cfg fails raw spec.name tx mu su db).2.1 ++ [Ev.resetRole] →
      (∀ k, e ≠ Ev.exited k) ∧ (∀ n hk, e ≠ Ev.hookInserted n hk)
        ∧ (∀ n, e ≠ Ev.migInserted n) := by
    intro e he
    rcases List.mem_append.mp he with he | he
    · rcases List.mem_append.mp he with he | he
      · rcases List.mem_cons.mp he with he | he
        · subst he; exact ⟨by simp, by simp, by simp⟩
        · split at he
          · rcases List.mem_singleton.mp he with rfl
            exact ⟨by simp, by simp, by simp⟩
          · cases he
      · have := hEE e he
        exact ⟨this.1, this.2.1, this.2.2.1⟩
    · rcases List.mem_singleton.mp he with rfl
      exact ⟨by simp, by simp, by simp⟩
  by_cases hdc : cfg.dryComplete = true
  · by_cases hrc : spec.rememberChange = true
    · simp only [hdc, hrc, if_true, Except.ok.injEq, Prod.mk.injEq] at h
      obtain ⟨rfl, rfl⟩ := h
      have hm := insertMigrationRec_spec cfg db path raw
      have hh := insertHookRec_spec cfg (insertMigrationRec cfg db path raw).1 raw.name spec.name
      have hmh := insertMigrationRec_hooks cfg db path raw
      refine ⟨?_, ?_, ?_, ?_, ?_, ?_⟩
      · intro k hk
        rcases List.mem_append.mp hk with hk | hk
        · exact absurd (hm.2.2.2 _ hk) (by simp)
        · exact absurd (hh.2.2.2 _ hk) (by simp)
      · intro r hr
        exact hh.2.2.1 r (hmh ▸ hr)
      · intro m hm2
        rw [hh.2.1]
        exact hm.2.1 m hm2
      · intro n hkk hmem
        rcases List.mem_append.mp hmem with hk | hk
        · exact absurd (hm.2.2.2 _ hk) (by simp)
        · have := hh.2.2.2 _ hk
          cases this
          exact insertHookRec_exists cfg (insertMigrationRec cfg db path raw).1 raw.name spec.name
      · intro n hmem
        rcases List.mem_append.mp hmem with hk | hk
        · have := hm.2.2.2 _ hk
          cases this
          rw [hh.2.1]
          exact hm.2.2.1 _ hk
        · exact absurd (hh.2.2.2 _ hk) (by simp)
      · intro hrc2
        simp [hrc2] at hrc
    · simp only [hdc, hrc, if_true, Bool.false_eq_true, if_false,
        Except.ok.injEq, Prod.mk.injEq] at h
      obtain ⟨rfl, rfl⟩ := h
      exact ⟨by simp, fun r hr => hr, fun m hm => hm, by simp, by simp, by simp⟩
  · by_cases hfl : (execBody cfg fails raw spec.name tx mu su db).2.2 = true
    · simp only [hdc, hfl, if_true, Bool.false_eq_true, if_false, reduceCtorEq] at h
    · by_cases hrc : spec.rememberChange = true
      · simp only [hdc, hfl, hrc, if_true, Bool.false_eq_true, if_false,
          Except.ok.injEq, Prod.mk.injEq] at h
        obtain ⟨rfl, rfl⟩ := h
        have hm := insertMigrationRec_spec cfg
          (execBody cfg fails raw spec.name tx mu su db).1 path raw
        have hh := insertHookRec_spec cfg
          (insertMigrationRec cfg (execBody cfg fails raw spec.name tx mu su db).1 path raw).1
          raw.name spec.name
        have hmh := insertMigrationRec_hooks cfg
          (execBody cfg fails raw spec.name tx mu su db).1 path raw
        refine ⟨?_, ?_, ?_, ?_, ?_, ?_⟩
        · intro k hkmem
          rcases List.mem_append.mp hkmem with hk | hk
          · rcases List.mem_append.mp hk with hk | hk
            · exact absurd rfl ((memPre _ hk).1 k)
            · exact absurd (hm.2.2.2 _ hk) (by simp)
          · exact absurd (hh.2.2.2 _ hk) (by simp)
        · intro r hr
          refine hh.2.2.1 r ?_
          rw [hmh, hER.1]
          exact hr
        · intro m hm2
          rw [hh.2.1]
          refine hm.2.1 m ?_
          rw [hER.2]
          exact hm2
        · intro n hkk hmem
          rcases List.mem_append.mp hmem with hk | hk
          · rcases List.mem_append.mp hk with hk | hk
            · exact absurd rfl ((memPre _ hk).2.1 n hkk)
            · exact absurd (hm.2.2.2 _ hk) (by simp)
          · have := hh.2.2.2 _ hk
            cases this
            exact insertHookRec_exists cfg
              (insertMigrationRec cfg (execBody cfg fails raw spec.name tx mu su db).1 path raw).1
              raw.name spec.name
        · intro n hmem
          rcases List.mem_append.mp hmem with hk | hk
          · rcases List.mem_append.mp hk with hk | hk
            · exact absurd rfl ((memPre _ hk).2.2 n)
            · have := hm.2.2.2 _ hk
              cases this
              rw [hh.2.1]
              exact hm.2.2.1 _ hk
          · exact absurd (hh.2.2.2 _ hk) (by simp)
        · intro hrc2
          simp [hrc2] at hrc
      · simp only [hdc, hfl, hrc, if_true, Bool.false_eq_true, if_false,
          Except.ok.injEq, Prod.mk.injEq] at h
        obtain ⟨rfl, rfl⟩ := h
        refine ⟨?_, ?_, ?_, ?_, ?_, ?_⟩
        · intro k hkmem
          exact absurd rfl ((memPre _ hkmem).1 k)
        · intro r hr
          rw [hER.1]
          exact hr
        · intro m hm2
          rw [hER.2]
          exact hm2
        · intro n hkk hmem
          exact absurd rfl ((memPre _ hmem).2.1 n hkk)
        · intro n hmem
          exact absurd rfl ((memPre _ hmem).2.2 n)
        · intro _ n hk
          exact ⟨fun hmem => absurd rfl ((memPre _ hmem).2.1 n hk),
                 fun hmem => absurd rfl ((memPre _ hmem).2.2 n)⟩

theorem runHookBody_error_shape (cfg : Config) (fails : String → String → Bool)
    (path : String) (raw : RawModule) (mu su : String) (spec : HookSpec)
    (tx : Bool) (db db' : DB) (evs : List Ev)
    (h : runHookBody cfg fails path raw mu su spec tx db = .error (db', evs)) :
    (∃ pre, evs = pre ++ [Ev.exited 1] ∧ (∀ k, Ev.exited k ∉ pre)
       ∧ (∀ n hk, Ev.hookInserted n hk ∉ pre) ∧ (∀ n, Ev.migInserted n ∉ pre))
  ∧ db'.hooks = db.hooks ∧ db'.migrations = db.migrations := by
  classical
  rw [runHookBody_eq_general] at h
  have hER := execBody_records cfg fails raw spec.name tx mu su db
  have hEE := execBody_events cfg fails raw spec.name tx mu su db
  by_cases hdc : cfg.dryComplete = true
  · by_cases hrc : spec.rememberChange = true <;>
      simp only [hdc, hrc, if_true, Bool.false_eq_true, if_false, reduceCtorEq] at h
  · by_cases hfl : (execBody cfg fails raw spec.name tx mu su db).2.2 = true
    · simp only [hdc, hfl, if_true, Bool.false_eq_true, if_false,
        Except.error.injEq, Prod.mk.injEq] at h
      obtain ⟨rfl, rfl⟩ := h
      refine ⟨⟨(Ev.resetRole ::
          (if raw.managedUsers == some true
              && !(spec.name == "cluster" || spec.name == "teardown")
           then [Ev.setRole mu] else []))
          ++ (execBody cfg fails raw spec.name tx mu su db).2.1, rfl, ?_, ?_, ?_⟩,
        hER.1, hER.2⟩
      · intro k hk
        rcases List.mem_append.mp hk with hk | hk
        · rcases List.mem_cons.mp hk with hk | hk
          · cases hk
          · split at hk
            · simp at hk
            · cases hk
        · exact absurd rfl ((hEE _ hk).1 k)
      · intro n hkk hk
        rcases List.mem_append.mp hk with hk | hk
        · rcases List.mem_cons.mp hk with hk | hk
          · cases hk
          · split at hk
            · simp at hk
            · cases hk
        · exact absurd rfl ((hEE _ hk).2.1 n hkk)
      · intro n hk
        rcases List.mem_append.mp hk with hk | hk
        · rcases List.mem_cons.mp hk with hk | hk
          · cases hk
          · split at hk
            · simp at hk
            · cases hk
        · exact absurd rfl ((hEE _ hk).2.2.1 n)
    · by_cases hrc : spec.rememberChange = true <;>
        simp only [hdc, hfl, hrc, if_true, Bool.false_eq_true, if_false, reduceCtorEq] at h

/-- Rows are only added, never removed. -/
def Mono (db db' : DB) : Prop :=
  (∀ r ∈ db.hooks, r ∈ db'.hooks) ∧ (∀ m ∈ db.migrations, m ∈ db'.migrations)

/-- Every insert event in the trace has a matching row in the final state. -/
def Persist (db' : DB) (evs : List Ev) : Prop :=
  (∀ n hk, Ev.hookInserted n hk ∈ evs → ∃ r ∈ db'.hooks, r.name = n ∧ r.hook = hk)
  ∧ (∀ n, Ev.migInserted n ∈ evs → ∃ m ∈ db'.migrations, m.name = n)

/-- No process exit occurs in the trace. -/
def NoExit (evs : List Ev) : Prop := ∀ k, Ev.exited k ∉ evs

/-- No bookkeeping insert occurs in the trace. -/
def NoInserts (evs : List Ev) : Prop :=
  ∀ n hk, Ev.hookInserted n hk ∉ evs ∧ Ev.migInserted n ∉ evs

/-- The trace is an exit-free prefix closed by the single process exit. -/
def EndsExit (evs : List Ev) : Prop :=
  ∃ pre, evs = pre ++ [Ev.exited 1] ∧ NoExit pre

theorem monoRefl (db : DB) : Mono db db := ⟨fun _ h => h, fun _ h => h⟩

theorem monoTrans {a b c : DB} (h1 : Mono a b) (h2 : Mono b c) : Mono a c :=
  ⟨fun r hr => h2.1 r (h1.1 r hr), fun m hm => h2.2 m (h1.2 m hm)⟩

theorem persistMono {db1 db2 : DB} {evs : List Ev} (h : Persist db1 evs)
    (hm : Mono db1 db2) : Persist db2 evs := by
  refine ⟨fun n hk hmem => ?_, fun n hmem => ?_⟩
  · obtain ⟨r, hr, he⟩ := h.1 n hk hmem
    exact ⟨r, hm.1 r hr, he⟩
  · obtain ⟨m, hmm, he⟩ := h.2 n hmem
    exact ⟨m, hm.2 m hmm, he⟩

theorem persistAppend {db : DB} {evs1 evs2 : List Ev} (h1 : Persist db evs1)
    (h2 : Persist db evs2) : Persist db (evs1 ++ evs2) := by
  refine ⟨fun n hk hmem => ?_, fun n hmem => ?_⟩
  · rcases List.mem_append.mp hmem with hm | hm
    · exact h1.1 n hk hm
    · exact h2.1 n hk hm
  · rcases List.mem_append.mp hmem with hm | hm
    · exact h1.2 n hm
    · exact h2.2 n hm

theorem persistNil (db : DB) : Persist db [] := by
  constructor <;> intro n <;> simp

theorem noExitAppend {evs1 evs2 : List Ev} (h1 : NoExit evs1) (h2 : NoExit evs2) :
    NoExit (evs1 ++ evs2) := by
  intro k hk
  rcases List.mem_append.mp hk with hm | hm
  · exact h1 k hm
  · exact h2 k hm

theorem noExitNil : NoExit [] := by intro k hk; cases hk

theorem noInsertsAppend {evs1 evs2 : List Ev} (h1 : NoInserts evs1) (h2 : NoInserts evs2) :
    NoInserts (evs1 ++ evs2) := by
  intro n hk
  constructor
  · intro hm
    rcases List.mem_append.mp hm with hm | hm
    · exact (h1 n hk).1 hm
    · exact (h2 n hk).1 hm
  · intro hm
    rcases List.mem_append.mp hm with hm | hm
    · exact (h1 n hk).2 hm
    · exact (h2 n hk).2 hm

theorem noInsertsPersist {db : DB} {evs : List Ev} (h : NoInserts evs) :
    Persist db evs := by
  refine ⟨fun n hk hmem => absurd hmem (h n hk).1, fun n hmem => absurd hmem (h n "").2⟩

theorem endsExitPrepend {evs1 evs2 : List Ev} (h1 : NoExit evs1) (h2 : EndsExit evs2) :
    EndsExit (evs1 ++ evs2) := by
  obtain ⟨pre, rfl, hp⟩ := h2
  exact ⟨evs1 ++ pre, by simp, noExitAppend h1 hp⟩

theorem doHookStep_ok_shape (cfg : Config) (fails : String → String → Bool)
    (path : String) (raw : RawModule) (noMig : Bool) (mu su : String)
    (spec : HookSpec) (db db' : DB) (evs : List Ev)
    (h : doHookStep cfg fails path raw noMig mu su spec db = .ok (db', evs)) :
    NoExit evs ∧ Mono db db' ∧ Persist db' evs
  ∧ (spec.rememberChange = false → NoInserts evs) := by
  simp only [doHookStep] at h
  split at h
  · simp only [Except.ok.injEq, Prod.mk.injEq] at h
    obtain ⟨rfl, rfl⟩ := h
    exact ⟨noExitNil, monoRefl db, persistNil db, fun _ => by intro n hk; simp⟩
  · split at h
    · simp only [Except.ok.injEq, Prod.mk.injEq] at h
      obtain ⟨rfl, rfl⟩ := h
      exact ⟨noExitNil, monoRefl db, persistNil db, fun _ => by intro n hk; simp⟩
    · split at h
      · simp only [Except.ok.injEq, Prod.mk.injEq] at h
        obtain ⟨rfl, rfl⟩ := h
        refine ⟨by intro k; simp [NoExit], monoRefl db, ?_, fun _ => by intro n hk; simp⟩
        constructor <;> intro n <;> simp
      · have := runHookBody_ok_shape cfg fails path raw mu su spec _ db db' evs h
        exact ⟨this.1, ⟨this.2.1, this.2.2.1⟩, ⟨this.2.2.2.1, this.2.2.2.2.1⟩,
          fun hrc => this.2.2.2.2.2 hrc⟩

theorem doHookStep_error_shape (cfg : Config) (fails : String → String → Bool)
    (path : String) (raw : RawModule) (noMig : Bool) (mu su : String)
    (spec : HookSpec) (db db' : DB) (evs : List Ev)
    (h : doHookStep cfg fails path raw noMig mu su spec db = .error (db', evs)) :
    EndsExit evs ∧ Mono db db' ∧ NoInserts evs := by
  simp only [doHookStep] at h
  split at h
  · cases h
  · split at h
    · cases h
    · split at h
      · cases h
      · have := runHookBody_error_shape cfg fails path raw mu su spec _ db db' evs h
        obtain ⟨⟨pre, rfl, hx, hins, hmig⟩, hhk, hmg⟩ := this
        refine ⟨⟨pre, rfl, hx⟩, ⟨fun r hr => by rw [hhk]; exact hr,
          fun m hm => by rw [hmg]; exact hm⟩, ?_⟩
        intro n hk
        constructor
        · intro hm
          rcases List.mem_append.mp hm with hm | hm
          · exact hins n hk hm
          · simp at hm
        · intro hm
          rcases List.mem_append.mp hm with hm | hm
          · exact hmig n hm
          · simp at hm

theorem runSpecs_ok_shape (cfg : Config) (fails : String → String → Bool)
    (path : String) (raw : RawModule) (noMig : Bool) (mu su : String) :
    ∀ (specs : List HookSpec) (db db' : DB) (evs : List Ev),
      runSpecs cfg fails path raw noMig mu su specs db = .ok (db', evs) →
      NoExit evs ∧ Mono db db' ∧ Persist db' evs
      ∧ ((∀ s ∈ specs, s.rememberChange = false) → NoInserts evs)
  | [], db, db', evs, h => by
    simp only [runSpecs, Except.ok.injEq, Prod.mk.injEq] at h
    obtain ⟨rfl, rfl⟩ := h
    exact ⟨noExitNil, monoRefl db, persistNil db, fun _ => by intro n hk; simp⟩
  | spec :: rest, db, db', evs, h => by
    rw [runSpecs] at h
    rcases hS : doHookStep cfg fails path raw noMig mu su spec db with p | p <;>
      rw [hS] at h
    · cases h
    · obtain ⟨db1, evs1⟩ := p
      dsimp only at h
      rcases hR : runSpecs cfg fails path raw noMig mu su rest db1 with q | q <;>
        rw [hR] at h
      · cases h
      · obtain ⟨db2, evs2⟩ := q
        simp only [Except.ok.injEq, Prod.mk.injEq] at h
        obtain ⟨rfl, rfl⟩ := h
        have s1 := doHookStep_ok_shape cfg fails path raw noMig mu su spec db db1 evs1 hS
        have s2 := runSpecs_ok_shape cfg fails path raw noMig mu su rest db1 db2 evs2 hR
        refine ⟨noExitAppend s1.1 s2.1, monoTrans s1.2.1 s2.2.1,
          persistAppend (persistMono s1.2.2.1 s2.2.1) s2.2.2.1, fun hall => ?_⟩
        exact noInsertsAppend (s1.2.2.2 (hall spec (by simp)))
          (s2.2.2.2 (fun s hs => hall s (by simp [hs])))

theorem runSpecs_error_shape (cfg : Config) (fails : String → String → Bool)
    (path : String) (raw : RawModule) (noMig : Bool) (mu su : String) :
    ∀ (specs : List HookSpec) (db db' : DB) (evs : List Ev),
      runSpecs cfg fails path raw noMig mu su specs db = .error (db', evs) →
      EndsExit evs ∧ Mono db db' ∧ Persist db' evs
      ∧ ((∀ s ∈ specs, s.rememberChange = false) → NoInserts evs)
  | [], db, db', evs, h => by
    rw [runSpecs] at h
    cases h
  | spec :: rest, db, db', evs, h => by
    rw [runSpecs] at h
    rcases hS : doHookStep cfg fails path raw noMig mu su spec db with p | p <;>
      rw [hS] at h
    · obtain ⟨db1, evs1⟩ := p
      simp only [Except.error.injEq, Prod.mk.injEq] at h
      obtain ⟨rfl, rfl⟩ := h
      have s1 := doHookStep_error_shape cfg fails path raw noMig mu su spec db _ _ hS
      exact ⟨s1.1, s1.2.1, noInsertsPersist s1.2.2, fun _ => s1.2.2⟩
    · obtain ⟨db1, evs1⟩ := p
      dsimp only at h
      rcases hR : runSpecs cfg fails path raw noMig mu su rest db1 with q | q <;>
        rw [hR] at h
      · obtain ⟨db2, evs2⟩ := q
        simp only [Except.error.injEq, Prod.mk.injEq] at h
        obtain ⟨rfl, rfl⟩ := h
        have s1 := doHookStep_ok_shape cfg fails path raw noMig mu su spec db db1 evs1 hS
        have s2 := runSpecs_error_shape cfg fails path raw noMig mu su rest db1 db2 evs2 hR
        refine ⟨endsExitPrepend s1.1 s2.1, monoTrans s1.2.1 s2.2.1,
          persistAppend (persistMono s1.2.2.1 s2.2.1) s2.2.2.1, fun hall => ?_⟩
        exact noInsertsAppend (s1.2.2.2 (hall spec (by simp)))
          (s2.2.2.2 (fun s hs => hall s (by simp [hs])))
      · cases h

theorem doMigration_ok_shape (cfg : Config) (fails : String → String → Bool)
    (specs : List HookSpec) (path : String) (raw : RawModule) (db db' : DB)
    (evs : List Ev)
    (h : doMigration cfg fails specs path raw db = .ok (db', evs)) :
    NoExit evs ∧ Mono db db' ∧ Persist db' evs
  ∧ ((∀ s ∈ specs, s.rememberChange = false) → NoInserts evs) := by
  simp only [doMigration] at h
  split at h
  · cases h
  · split at h
    · cases h
    · exact runSpecs_ok_shape cfg fails path raw
        (!(db.roles.contains (migrationUserName raw.name)))
        (migrationUserName raw.name) (serviceUserName raw.name) specs db db' evs h

theorem doMigration_error_shape (cfg : Config) (fails : String → String → Bool)
    (specs : List HookSpec) (path : String) (raw : RawModule) (db db' : DB)
    (evs : List Ev)
    (h : doMigration cfg fails specs path raw db = .error (db', evs)) :
    EndsExit evs ∧ Mono db db' ∧ Persist db' evs
  ∧ ((∀ s ∈ specs, s.rememberChange = false) → NoInserts evs) := by
  simp only [doMigration] at h
  split at h
  · simp only [Except.error.injEq, Prod.mk.injEq] at h
    obtain ⟨rfl, rfl⟩ := h
    refine ⟨⟨[], by simp, noExitNil⟩, monoRefl db, ?_, fun _ => ?_⟩
    · constructor <;> intro n <;> simp
    · intro n hk
      constructor <;> simp
  · split at h
    · simp only [Except.error.injEq, Prod.mk.injEq] at h
      obtain ⟨rfl, rfl⟩ := h
      refine ⟨⟨[], by simp, noExitNil⟩, monoRefl db, ?_, fun _ => ?_⟩
      · constructor <;> intro n <;> simp
      · intro n hk
        constructor <;> simp
    · exact runSpecs_error_shape cfg fails path raw
        (!(db.roles.contains (migrationUserName raw.name)))
        (migrationUserName raw.name) (serviceUserName raw.name) specs db db' evs h

theorem doHookPhase_ok_shape (cfg : Config) (fails : String → String → Bool)
    (specs : List HookSpec) :
    ∀ (migs : List (String × RawModule)) (db db' : DB) (evs : List Ev),
      doHookPhase cfg fails specs migs db = .ok (db', evs) →
      NoExit evs ∧ Mono db db' ∧ Persist db' evs
      ∧ ((∀ s ∈ specs, s.rememberChange = false) → NoInserts evs)
  | [], db, db', evs, h => by
    simp only [doHookPhase, Except.ok.injEq, Prod.mk.injEq] at h
    obtain ⟨rfl, rfl⟩ := h
    exact ⟨noExitNil, monoRefl db, persistNil db, fun _ => by intro n hk; simp⟩
  | (path, raw) :: rest, db, db', evs, h => by
    rw [doHookPhase] at h
    rcases hS : doMigration cfg fails specs path raw db with p | p <;> rw [hS] at h
    · cases h
    · obtain ⟨db1, evs1⟩ := p
      dsimp only at h
      rcases hR : doHookPhase cfg fails specs rest db1 with q | q <;> rw [hR] at h
      · cases h
      · obtain ⟨db2, evs2⟩ := q
        simp only [Except.ok.injEq, Prod.mk.injEq] at h
        obtain ⟨rfl, rfl⟩ := h
        have s1 := doMigration_ok_shape cfg fails specs path raw db db1 evs1 hS
        have s2 := doHookPhase_ok_shape cfg fails specs rest db1 db2 evs2 hR
        exact ⟨noExitAppend s1.1 s2.1, monoTrans s1.2.1 s2.2.1,
          persistAppend (persistMono s1.2.2.1 s2.2.1) s2.2.2.1,
          fun hall => noInsertsAppend (s1.2.2.2 hall) (s2.2.2.2 hall)⟩

theorem doHookPhase_error_shape (cfg : Config) (fails : String → String → Bool)
    (specs : List HookSpec) :
    ∀ (migs : List (String × RawModule)) (db db' : DB) (evs : List Ev),
      doHookPhase cfg fails specs migs db = .error (db', evs) →
      EndsExit evs ∧ Mono db db' ∧ Persist db' evs
      ∧ ((∀ s ∈ specs, s.rememberChange = false) → NoInserts evs)
  | [], db, db', evs, h => by
    rw [doHookPhase] at h
    cases h
  | (path, raw) :: rest, db, db', evs, h => by
    rw [doHookPhase] at h
    rcases hS : doMigration cfg fails specs path raw db with p | p <;> rw [hS] at h
    · obtain ⟨db1, evs1⟩ := p
      simp only [Except.error.injEq, Prod.mk.injEq] at h
      obtain ⟨rfl, rfl⟩ := h
      exact doMigration_error_shape cfg fails specs path raw db _ _ hS
    · obtain ⟨db1, evs1⟩ := p
      dsimp only at h
      rcases hR : doHookPhase cfg fails specs rest db1 with q | q <;> rw [hR] at h
      · obtain ⟨db2, evs2⟩ := q
        simp only [Except.error.injEq, Prod.mk.injEq] at h
        obtain ⟨rfl, rfl⟩ := h
        have s1 := doMigration_ok_shape cfg fails specs path raw db db1 evs1 hS
        have s2 := doHookPhase_error_shape cfg fails specs rest db1 db2 evs2 hR
        exact ⟨endsExitPrepend s1.1 s2.1, monoTrans s1.2.1 s2.2.1,
          persistAppend (persistMono s1.2.2.1 s2.2.1) s2.2.2.1,
          fun hall => noInsertsAppend (s1.2.2.2 hall) (s2.2.2.2 hall)⟩
      · cases h

/-- Claim C8: when a run exits early (any hook body threw, a conflict error
    was raised, or a module failed validation), the exit code is 1, the
    trace is an exit-free prefix closed by the single process exit — nothing
    further was attempted — and every bookkeeping insert committed before
    the failure is still present in the final database state. -/
theorem runEngine_failure_aborts (cfg : Config) (fails : String → String → Bool)
    (migs : List (String × RawModule)) (db db' : DB) (evs : List Ev) (c : Nat)
    (h : runEngine cfg fails migs db = (db', evs, some c)) :
    c = 1
  ∧ (∃ pre, evs = pre ++ [Ev.exited 1] ∧ NoExit pre)
  ∧ Persist db' evs := by
  unfold runEngine at h
  by_cases hmode : (cfg.dev && cfg.tearDownFlag) = true <;>
    simp only [hmode, if_true, Bool.false_eq_true, if_false] at h
  · rcases h1 : doHookPhase cfg fails devTeardownSpecs migs (setupPGMG db) with p | p <;>
      rw [h1] at h
    · obtain ⟨db1, evs1⟩ := p
      simp only [Prod.mk.injEq, Option.some.injEq] at h
      obtain ⟨rfl, rfl, rfl⟩ := h
      have s1 := doHookPhase_error_shape cfg fails devTeardownSpecs migs (setupPGMG db) _ _ h1
      exact ⟨rfl, s1.1, s1.2.2.1⟩
    · obtain ⟨db1, evs1⟩ := p
      dsimp only at h
      rcases h2 : doHookPhase cfg fails [] migs (purgeDevState db1) with q | q <;>
        rw [h2] at h
      · obtain ⟨db3, evs3⟩ := q
        simp only [Prod.mk.injEq, Option.some.injEq] at h
        obtain ⟨rfl, rfl, rfl⟩ := h
        have s1 := doHookPhase_ok_shape cfg fails devTeardownSpecs migs (setupPGMG db) _ _ h1
        have s2 := doHookPhase_error_shape cfg fails [] migs (purgeDevState db1) _ _ h2
        have ni1 : NoInserts evs1 := s1.2.2.2 (by intro s hs; simp [devTeardownSpecs] at hs; simp [hs])
        have ni3 : NoInserts evs3 := s2.2.2.2 (by intro s hs; simp at hs)
        exact ⟨rfl, endsExitPrepend s1.1 s2.1, noInsertsPersist (noInsertsAppend ni1 ni3)⟩
      · obtain ⟨db3, evs3⟩ := q
        simp only [Prod.mk.injEq] at h
        exact absurd h.2.2 (by simp)
  · rcases h1 : doHookPhase cfg fails (clusterSpecs cfg.dev) migs
        (setupPGMG (if cfg.restore then { db with migrations := [], hooks := [] } else db))
        with p | p <;> rw [h1] at h
    · obtain ⟨db1, evs1⟩ := p
      simp only [Prod.mk.injEq, Option.some.injEq] at h
      obtain ⟨rfl, rfl, rfl⟩ := h
      have s1 := doHookPhase_error_shape cfg fails (clusterSpecs cfg.dev) migs _ _ _ h1
      exact ⟨rfl, s1.1, s1.2.2.1⟩
    · obtain ⟨db1, evs1⟩ := p
      dsimp only at h
      rcases h2 : doHookPhase cfg fails databaseSpecs migs db1 with q | q <;> rw [h2] at h
      · obtain ⟨db3, evs3⟩ := q
        simp only [Prod.mk.injEq, Option.some.injEq] at h
        obtain ⟨rfl, rfl, rfl⟩ := h
        have s1 := doHookPhase_ok_shape cfg fails (clusterSpecs cfg.dev) migs _ _ _ h1
        have s2 := doHookPhase_error_shape cfg fails databaseSpecs migs db1 _ _ h2
        exact ⟨rfl, endsExitPrepend s1.1 s2.1,
          persistAppend (persistMono s1.2.2.1 s2.2.1) s2.2.2.1⟩
      · obtain ⟨db3, evs3⟩ := q
        simp only [Prod.mk.injEq] at h
        exact absurd h.2.2 (by simp)

/-- Claim C8 witness: a failing action body on a fresh database aborts the
    run with exit code 1 and an exit-terminated trace. -/
theorem runEngine_failure_aborts_witness :
    ∃ pre, (runEngine ⟨false, false, false, false, false, "hostA", 30000000, 30000001⟩
        (fun n h => n == "m1" && h == "action")
        [("f1", ⟨"m1", none, true, false, false, false, false, none⟩)]
        ⟨[], [], []⟩).2.1
      = pre ++ [Ev.exited 1] ∧ NoExit pre := by
  have h : runEngine ⟨false, false, false, false, false, "hostA", 30000000, 30000001⟩
      (fun n h => n == "m1" && h == "action")
      [("f1", ⟨"m1", none, true, false, false, false, false, none⟩)] ⟨[], [], []⟩
    = ((runEngine ⟨false, false, false, false, false, "hostA", 30000000, 30000001⟩
          (fun n h => n == "m1" && h == "action")
          [("f1", ⟨"m1", none, true, false, false, false, false, none⟩)] ⟨[], [], []⟩).1,
       (runEngine ⟨false, false, false, false, false, "hostA", 30000000, 30000001⟩
          (fun n h => n == "m1" && h == "action")
          [("f1", ⟨"m1", none, true, false, false, false, false, none⟩)] ⟨[], [], []⟩).2.1,
       some 1) := by decide
  exact (runEngine_failure_aborts ⟨false, false, false, false, false, "hostA", 30000000, 30000001⟩
      (fun n h => n == "m1" && h == "action")
      [("f1", ⟨"m1", none, true, false, false, false, false, none⟩)]
      ⟨[], [], []⟩ _ _ 1 h).2.1


theorem setupPGMG_roles (db : DB) : (setupPGMG db).roles = db.roles := rfl

theorem setupPGMG_migs (db : DB) : (setupPGMG db).migrations = db.migrations := rfl

theorem setupPGMG_names (db : DB) :
    ∀ r ∈ (setupPGMG db).hooks, ∃ h ∈ db.hooks, r.name = h.name := by
  intro r hr
  unfold setupPGMG at hr
  rcases List.mem_append.mp hr with hr | hr
  · exact ⟨r, hr, rfl⟩
  · rw [List.mem_filterMap] at hr
    obtain ⟨t, ht, hf⟩ := hr
    rw [List.mem_filter] at ht
    split at hf
    · cases hf
    · simp only [Option.some.injEq] at hf
      subst hf
      exact ⟨t, ht.1, rfl⟩

theorem findMigRecord_none (db : DB) (n : String)
    (h : ∀ m ∈ db.migrations, m.name ≠ n) : findMigRecord db n = none := by
  rw [findMigRecord, List.find?_eq_none]
  intro m hm
  simp [h m hm]

theorem findLookup_none_of_no_migration (host : String) (st : Int) (db : DB)
    (n hk : String) (h : findMigRecord db n = none) :
    findLookup host st db n hk false = none := by
  simp [findLookup, findHookJoin, h]

theorem migrationUserName_ne_serviceUserName (n : String) :
    migrationUserName n ≠ serviceUserName n := by
  intro h
  have hl := congrArg (fun s => s.data.length) h
  simp only [migrationUserName, serviceUserName, String.data_append,
    List.length_append] at hl
  have l1 : ("pgmg_migration_" : String).data.length = 15 := by decide
  have l2 : ("pgmg_service_" : String).data.length = 13 := by decide
  rw [l1, l2] at hl
  omega

theorem insertMigrationRec_exists (cfg : Config) (db : DB) (p : String) (raw : RawModule) :
    ∃ m ∈ (insertMigrationRec cfg db p raw).1.migrations, m.name = raw.name := by
  unfold insertMigrationRec
  split
  · next hany =>
    obtain ⟨m, hm, hp⟩ := List.any_eq_true.mp hany
    exact ⟨m, hm, by simpa using hp⟩
  · refine ⟨⟨raw.name, p, normalizeDescription raw.description, cfg.now⟩, ?_, rfl⟩
    simp

theorem wrappedHasHook_cluster (raw : RawModule) (hmu : raw.managedUsers ≠ some false) :
    wrappedHasHook raw "cluster" = true := by
  have e : (raw.managedUsers == some false) = false := beq_eq_false_iff_ne.mpr hmu
  simp [wrappedHasHook, e]

theorem doHookStep_cluster_fresh (cfg : Config) (fails : String → String → Bool)
    (path : String) (raw : RawModule) (noMig : Bool) (mu su : String) (db : DB)
    (hmu : raw.managedUsers ≠ some false) (hclf : raw.cluster = false)
    (hdry : cfg.dry = false) (hdc : cfg.dryComplete = false)
    (hfound : findLookup cfg.host cfg.startTime db raw.name "cluster" false = none)
    (hr1 : mu ∉ db.roles) (hr2 : su ∉ db.roles) (hms : mu ≠ su) :
    ∃ db2 evs,
      doHookStep cfg fails path raw noMig mu su
          ⟨"cluster", false, false, true, false, true⟩ db = .ok (db2, evs)
      ∧ db2.roles = db.roles ++ [mu, su]
      ∧ (∃ r ∈ db2.hooks, r.name = raw.name ∧ r.hook = "cluster")
      ∧ (∃ m ∈ db2.migrations, m.name = raw.name) := by
  have emu : (raw.managedUsers == some false) = false := beq_eq_false_iff_ne.mpr hmu
  have hwh := wrappedHasHook_cluster raw hmu
  have hsc : shouldContinue false true
      (findLookup cfg.host cfg.startTime db raw.name "cluster" false) false cfg.dev
      (wrappedHasHook raw "teardown") ((findMigRecord db raw.name).isSome)
      (anyDevHookFoundCalc db raw.name false) true
      (!(raw.managedUsers == some false)) true noMig
      (hostIsDifferentCalc cfg.host
        (findLookup cfg.host cfg.startTime db raw.name "cluster" false)) false = true := by
    rw [hfound]
    simp [shouldContinue, coreBranches]
  have hcreate : create_pgmg_objects (fun r => decide (r ∈ db.roles)) cfg.dev mu su =
      ([(mu, RoleKind.superuserNologin), (su, RoleKind.restrictedNologin)], none) :=
    (create_pgmg_objects_cases (fun r => decide (r ∈ db.roles)) cfg.dev mu su hms).1
      (by simp [hr1]) (by simp [hr2])
  have hEB : execBody cfg fails raw "cluster" false mu su db =
      ({ db with roles := db.roles ++ [mu, su] },
       [Ev.roleCreated mu RoleKind.superuserNologin,
        Ev.roleCreated su RoleKind.restrictedNologin], false) := by
    simp only [execBody, emu, Bool.false_eq_true, if_false,
      show (("cluster" : String) == "teardown") = false from rfl,
      show (("cluster" : String) == "cluster") = true from rfl,
      if_true, hclf]
    simp [hcreate]
  simp only [doHookStep, hwh, Bool.not_true, Bool.false_and, Bool.and_false,
    Bool.true_or, Bool.or_false, hdry, hdc, hsc,
    show (("cluster" : String) == "action") = false from rfl,
    show (("cluster" : String) == "cluster") = true from rfl,
    Bool.false_eq_true, if_false, Bool.not_false, if_true]
  rw [runHookBody_eq_general]
  simp only [hdc, Bool.false_eq_true, if_false, hEB]
  refine ⟨_, _, rfl, ?_, ?_, ?_⟩
  · rw [(insertHookRec_spec cfg _ raw.name "cluster").1,
      (insertMigrationRec_spec cfg _ path raw).1]
  · exact insertHookRec_exists cfg _ raw.name "cluster"
  · rw [(insertHookRec_spec cfg _ raw.name "cluster").2.1]
    exact insertMigrationRec_exists cfg _ path raw

theorem runHookBody_safe (cfg : Config) (fails : String → String → Bool)
    (path : String) (raw : RawModule) (mu su : String) (spec : HookSpec)
    (tx : Bool) (db : DB)
    (h1 : spec.name ≠ "cluster") (h2 : spec.name ≠ "teardown")
    (hfails : ∀ n h, fails n h = false) :
    ∃ db2 evs, runHookBody cfg fails path raw mu su spec tx db = .ok (db2, evs)
      ∧ db2.roles = db.roles := by
  rw [runHookBody_eq_general]
  by_cases hdc : cfg.dryComplete = true
  · simp only [hdc, if_true]
    split
    · refine ⟨_, _, rfl, ?_⟩
      rw [(insertHookRec_spec cfg _ raw.name spec.name).1,
        (insertMigrationRec_spec cfg _ path raw).1]
    · exact ⟨_, _, rfl, rfl⟩
  · have hEB := execBody_plain cfg fails raw spec.name tx mu su db h1 h2
    simp only [hdc, Bool.false_eq_true, if_false, hEB, hfails]
    split
    · refine ⟨_, _, rfl, ?_⟩
      rw [(insertHookRec_spec cfg _ raw.name spec.name).1,
        (insertMigrationRec_spec cfg _ path raw).1]
    · exact ⟨_, _, rfl, rfl⟩

theorem doHookStep_safe (cfg : Config) (fails : String → String → Bool)
    (path : String) (raw : RawModule) (noMig : Bool) (mu su : String)
    (spec : HookSpec) (db : DB)
    (h1 : spec.name ≠ "cluster") (h2 : spec.name ≠ "teardown")
    (hfails : ∀ n h, fails n h = false) :
    ∃ db2 evs, doHookStep cfg fails path raw noMig mu su spec db = .ok (db2, evs)
      ∧ db2.roles = db.roles := by
  simp only [doHookStep]
  split
  · exact ⟨db, [], rfl, rfl⟩
  · split
    · exact ⟨db, [], rfl, rfl⟩
    · split
      · exact ⟨db, [Ev.dryLog raw.name spec.name], rfl, rfl⟩
      · exact runHookBody_safe cfg fails path raw mu su spec _ db h1 h2 hfails

theorem doHookStep_always (cfg : Config) (fails : String → String → Bool)
    (path : String) (raw : RawModule) (noMig : Bool) (mu su : String) (db : DB)
    (halw : raw.always = true) (hdry : cfg.dry = false) (hdc : cfg.dryComplete = false)
    (hfails : ∀ n h, fails n h = false) :
    ∃ db2 evs,
      doHookStep cfg fails path raw noMig mu su
          ⟨"always", true, false, true, false, false⟩ db = .ok (db2, evs)
      ∧ db2.roles = db.roles ∧ Ev.bodyStart raw.name "always" false ∈ evs := by
  have hwh : wrappedHasHook raw "always" = true := by
    unfold wrappedHasHook
    split <;> simp [halw]
  have hsc : shouldContinue false true
      (findLookup cfg.host cfg.startTime db raw.name "always" true) false cfg.dev
      (wrappedHasHook raw "teardown") ((findMigRecord db raw.name).isSome)
      (anyDevHookFoundCalc db raw.name true) false
      (!(raw.managedUsers == some false)) false noMig
      (hostIsDifferentCalc cfg.host
        (findLookup cfg.host cfg.startTime db raw.name "always" true)) true = true := by
    simp [shouldContinue, coreBranches]
  simp only [doHookStep, hwh, Bool.not_true, Bool.false_and, Bool.and_false,
    Bool.true_or, Bool.or_false, hdry, hdc, hsc,
    show (("always" : String) == "action") = false from rfl,
    show (("always" : String) == "cluster") = false from rfl,
    Bool.false_eq_true, if_false, Bool.not_false, if_true]
  rw [runHookBody_plain_eq cfg fails path raw mu su
    ⟨"always", true, false, true, false, false⟩ _ db hdc (by decide) (by decide)]
  simp only [hfails, Bool.false_eq_true, if_false,
    show (("always" : String) == "action") = false from rfl, Bool.false_and, if_true]
  refine ⟨_, _, rfl, ?_, ?_⟩
  · rw [(insertHookRec_spec cfg _ raw.name _).1, (insertMigrationRec_spec cfg _ path raw).1]
  · simp

theorem doMigration_db_safe (cfg : Config) (fails : String → String → Bool)
    (path : String) (raw : RawModule) (db : DB)
    (hname : raw.name ≠ "")
    (hexp : (raw.action || raw.always || raw.cluster || raw.teardown || raw.transaction) = true)
    (hfails : ∀ n h, fails n h = false) :
    ∃ db2 evs, doMigration cfg fails databaseSpecs path raw db = .ok (db2, evs)
      ∧ db2.roles = db.roles
      ∧ (raw.always = true → cfg.dry = false → cfg.dryComplete = false →
          Ev.bodyStart raw.name "always" false ∈ evs) := by
  have hn : (raw.name == "") = false := beq_eq_false_iff_ne.mpr hname
  obtain ⟨db1, evs1, hS1, hr1⟩ := doHookStep_safe cfg fails path raw
    (!(db.roles.contains (migrationUserName raw.name)))
    (migrationUserName raw.name) (serviceUserName raw.name)
    ⟨"action", false, false, true, false, false⟩ db (by decide) (by decide) hfails
  by_cases halw : raw.always = true
  · by_cases hdry : cfg.dry = false
    · by_cases hdc : cfg.dryComplete = false
      · obtain ⟨db2, evs2, hS2, hr2, hmem⟩ := doHookStep_always cfg fails path raw
          (!(db.roles.contains (migrationUserName raw.name)))
          (migrationUserName raw.name) (serviceUserName raw.name) db1 halw hdry hdc hfails
        refine ⟨db2, evs1 ++ (evs2 ++ []), ?_, by rw [hr2, hr1], fun _ _ _ => ?_⟩
        · simp only [doMigration, hn, Bool.false_eq_true, if_false, hexp,
            Bool.not_true, if_true, databaseSpecs]
          rw [runSpecs, hS1]
          dsimp only
          rw [runSpecs, hS2]
          dsimp only
          rw [runSpecs]
        · simp [hmem]
      · obtain ⟨db2, evs2, hS2, hr2⟩ := doHookStep_safe cfg fails path raw
          (!(db.roles.contains (migrationUserName raw.name)))
          (migrationUserName raw.name) (serviceUserName raw.name)
          ⟨"always", true, false, true, false, false⟩ db1 (by decide) (by decide) hfails
        refine ⟨db2, evs1 ++ (evs2 ++ []), ?_, by rw [hr2, hr1], fun _ _ hdc2 => ?_⟩
        · simp only [doMigration, hn, Bool.false_eq_true, if_false, hexp,
            Bool.not_true, if_true, databaseSpecs]
          rw [runSpecs, hS1]
          dsimp only
          rw [runSpecs, hS2]
          dsimp only
          rw [runSpecs]
        · exact absurd hdc2 hdc
    · obtain ⟨db2, evs2, hS2, hr2⟩ := doHookStep_safe cfg fails path raw
        (!(db.roles.contains (migrationUserName raw.name)))
        (migrationUserName raw.name) (serviceUserName raw.name)
        ⟨"always", true, false, true, false, false⟩ db1 (by decide) (by decide) hfails
      refine ⟨db2, evs1 ++ (evs2 ++ []), ?_, by rw [hr2, hr1], fun _ hdry2 _ => ?_⟩
      · simp only [doMigration, hn, Bool.false_eq_true, if_false, hexp,
          Bool.not_true, if_true, databaseSpecs]
        rw [runSpecs, hS1]
        dsimp only
        rw [runSpecs, hS2]
        dsimp only
        rw [runSpecs]
      · exact absurd hdry2 hdry
  · obtain ⟨db2, evs2, hS2, hr2⟩ := doHookStep_safe cfg fails path raw
      (!(db.roles.contains (migrationUserName raw.name)))
      (migrationUserName raw.name) (serviceUserName raw.name)
      ⟨"always", true, false, true, false, false⟩ db1 (by decide) (by decide) hfails
    refine ⟨db2, evs1 ++ (evs2 ++ []), ?_, by rw [hr2, hr1], fun halw2 _ _ => ?_⟩
    · simp only [doMigration, hn, Bool.false_eq_true, if_false, hexp,
        Bool.not_true, if_true, databaseSpecs]
      rw [runSpecs, hS1]
      dsimp only
      rw [runSpecs, hS2]
      dsimp only
      rw [runSpecs]
    · exact absurd halw2 halw

theorem doHookPhase_db_safe (cfg : Config) (fails : String → String → Bool) :
    ∀ (migs : List (String × RawModule)) (db : DB),
      (∀ pm ∈ migs, pm.2.name ≠ ""
        ∧ (pm.2.action || pm.2.always || pm.2.cluster || pm.2.teardown || pm.2.transaction) = true) →
      (∀ n h, fails n h = false) →
      ∃ db2 evs, doHookPhase cfg fails databaseSpecs migs db = .ok (db2, evs)
        ∧ db2.roles = db.roles
        ∧ (∀ pm ∈ migs, pm.2.always = true → cfg.dry = false → cfg.dryComplete = false →
            Ev.bodyStart pm.2.name "always" false ∈ evs)
  | [], db, hmigs, hfails => by
    refine ⟨db, [], by rw [doHookPhase], rfl, ?_⟩
    intro pm hpm
    cases hpm
  | (path, raw) :: rest, db, hmigs, hfails => by
    obtain ⟨db1, evs1, hS1, hr1, hmem1⟩ := doMigration_db_safe cfg fails path raw db
      (hmigs (path, raw) (by simp)).1 (hmigs (path, raw) (by simp)).2 hfails
    obtain ⟨db2, evs2, hS2, hr2, hmem2⟩ := doHookPhase_db_safe cfg fails rest db1
      (fun pm hpm => hmigs pm (by simp [hpm])) hfails
    refine ⟨db2, evs1 ++ evs2, ?_, by rw [hr2, hr1], ?_⟩
    · rw [doHookPhase, hS1]
      dsimp only
      rw [hS2]
    · intro pm hpm halw hdry hdc
      rcases List.mem_cons.mp hpm with hpm | hpm
      · subst hpm
        exact List.mem_append.mpr (Or.inl (hmem1 halw hdry hdc))
      · exact List.mem_append.mpr (Or.inr (hmem2 pm hpm halw hdry hdc))

/-- Claim C9: a migration that does not explicitly disable managedUsers gets
    generated cluster and teardown bodies, so on a database where it was
    never recorded a (non-restore, non-dry) production first run creates
    both generated roles and records a (name, cluster) hook row — even when
    the migration file exports no cluster function. -/
theorem cluster_wrapper_first_run (cfg : Config) (fails : String → String → Bool)
    (path : String) (raw : RawModule) (db : DB)
    (hdev : cfg.dev = false) (htd : cfg.tearDownFlag = false)
    (hres : cfg.restore = false) (hdry : cfg.dry = false) (hdc : cfg.dryComplete = false)
    (hmu : raw.managedUsers ≠ some false) (hclf : raw.cluster = false)
    (hname : raw.name ≠ "")
    (hexp : (raw.action || raw.always || raw.cluster || raw.teardown || raw.transaction) = true)
    (hfails : ∀ n h, fails n h = false)
    (hfresh1 : ∀ m ∈ db.migrations, m.name ≠ raw.name)
    (hr1 : migrationUserName raw.name ∉ db.roles)
    (hr2 : serviceUserName raw.name ∉ db.roles) :
    ∃ db' evs, runEngine cfg fails [(path, raw)] db = (db', evs, none)
      ∧ migrationUserName raw.name ∈ db'.roles
      ∧ serviceUserName raw.name ∈ db'.roles
      ∧ (∃ r ∈ db'.hooks, r.name = raw.name ∧ r.hook = "cluster")
      ∧ (∃ m ∈ db'.migrations, m.name = raw.name) := by
  have hn : (raw.name == "") = false := beq_eq_false_iff_ne.mpr hname
  have hfind : findMigRecord (setupPGMG db) raw.name = none := by
    apply findMigRecord_none
    intro m hm
    rw [setupPGMG_migs] at hm
    exact hfresh1 m hm
  have hfound := findLookup_none_of_no_migration cfg.host cfg.startTime (setupPGMG db)
    raw.name "cluster" hfind
  have hr1s : migrationUserName raw.name ∉ (setupPGMG db).roles := by
    rw [setupPGMG_roles]; exact hr1
  have hr2s : serviceUserName raw.name ∉ (setupPGMG db).roles := by
    rw [setupPGMG_roles]; exact hr2
  obtain ⟨db2, evs2, hC, hroles2, hrow, hmig⟩ :=
    doHookStep_cluster_fresh cfg fails path raw
      (!((setupPGMG db).roles.contains (migrationUserName raw.name)))
      (migrationUserName raw.name) (serviceUserName raw.name) (setupPGMG db)
      hmu hclf hdry hdc hfound hr1s hr2s (migrationUserName_ne_serviceUserName raw.name)
  have hS0 : doHookStep cfg fails path raw
      (!((setupPGMG db).roles.contains (migrationUserName raw.name)))
      (migrationUserName raw.name) (serviceUserName raw.name)
      ⟨"teardown", false, !false, false, true, false⟩ (setupPGMG db)
      = .ok (setupPGMG db, []) := by
    simp [doHookStep]
  have hDM : doMigration cfg fails (clusterSpecs false) path raw (setupPGMG db)
      = .ok (db2, [] ++ (evs2 ++ [])) := by
    simp only [doMigration, hn, Bool.false_eq_true, if_false, hexp, Bool.not_true,
      if_true, clusterSpecs]
    rw [runSpecs, hS0]
    dsimp only
    rw [runSpecs, hC]
    dsimp only
    rw [runSpecs]
  have hphase1 : doHookPhase cfg fails (clusterSpecs false) [(path, raw)] (setupPGMG db)
      = .ok (db2, ([] ++ (evs2 ++ [])) ++ []) := by
    rw [doHookPhase, hDM]
    dsimp only
    rw [doHookPhase]
  obtain ⟨db3, evs3, hP2, hroles3, _⟩ := doHookPhase_db_safe cfg fails [(path, raw)] db2
    (by intro pm hpm; rcases List.mem_singleton.mp hpm with rfl; exact ⟨hname, hexp⟩) hfails
  have hmono := (doHookPhase_ok_shape cfg fails databaseSpecs [(path, raw)] db2 db3 evs3 hP2).2.1
  refine ⟨db3, (([] ++ (evs2 ++ [])) ++ []) ++ evs3, ?_, ?_, ?_, ?_, ?_⟩
  · simp only [runEngine, hdev, htd, hres, Bool.false_and, Bool.false_eq_true, if_false]
    rw [hphase1]
    dsimp only
    rw [hP2]
  · rw [hroles3, hroles2]
    simp
  · rw [hroles3, hroles2]
    simp
  · obtain ⟨r, hrr, hre⟩ := hrow
    exact ⟨r, hmono.1 r hrr, hre⟩
  · obtain ⟨m, hmm, hme⟩ := hmig
    exact ⟨m, hmono.2 m hmm, hme⟩

/-- Claim C9 witness: a concrete fresh production run of an action-only
    migration ends with both generated roles present and a cluster row
    recorded. -/
theorem cluster_wrapper_first_run_witness :
    ∃ db' evs, runEngine ⟨false, false, false, false, false, "hostA", 30000000, 30000001⟩
        (fun _ _ => false) [("f1", ⟨"m1", none, true, false, false, false, false, none⟩)]
        ⟨[], [], []⟩ = (db', evs, none)
      ∧ migrationUserName "m1" ∈ db'.roles
      ∧ serviceUserName "m1" ∈ db'.roles
      ∧ (∃ r ∈ db'.hooks, r.name = "m1" ∧ r.hook = "cluster")
      ∧ (∃ m ∈ db'.migrations, m.name = "m1") :=
  cluster_wrapper_first_run ⟨false, false, false, false, false, "hostA", 30000000, 30000001⟩
    (fun _ _ => false) "f1" ⟨"m1", none, true, false, false, false, false, none⟩
    ⟨[], [], []⟩ rfl rfl rfl rfl rfl (by decide) rfl (by decide) rfl
    (fun _ _ => rfl) (by simp) (by simp) (by simp)


/-- Whether an event is a hook body invocation. -/
def isBodyStart : Ev → Bool
  | .bodyStart _ _ _ => true
  | _ => false

/-- Claim C4, counterexample: on a fresh database with two always-and-action
    migrations, the body invocations of the databaseMigrate phase are
    interleaved per migration — the first migration's always body runs
    before the second migration's action body — refuting the claim that an
    always hook executes only after all action hooks of every migration. -/
theorem databaseMigrate_interleaving_counterexample :
    (resultEvents (doHookPhase ⟨false, false, false, false, false, "hostA", 30000000, 30000001⟩
        (fun _ _ => false) databaseSpecs
        [("f1", ⟨"m1", none, true, true, false, false, false, none⟩),
         ("f2", ⟨"m2", none, true, true, false, false, false, none⟩)]
        ⟨[], [], []⟩)).filter isBodyStart
      = [Ev.bodyStart "m1" "action" false, Ev.bodyStart "m1" "always" false,
         Ev.bodyStart "m2" "action" false, Ev.bodyStart "m2" "always" false] := by
  decide

/-- Claim C4 amended: on every invocation with executable always bodies
    (outside dry and dry-complete modes, with no body failing), the
    databaseMigrate phase completes and invokes every migration's always
    body, whatever the persisted state; the scheduler interleaves the
    hook-group per migration, so migration N's always body runs after
    migration N's action body but before migration N+1's action body, as
    the concrete two-migration trace shows. -/
theorem databaseMigrate_always_runs :
    (∀ (cfg : Config) (fails : String → String → Bool)
        (migs : List (String × RawModule)) (db : DB),
      cfg.dry = false → cfg.dryComplete = false → (∀ n h, fails n h = false) →
      (∀ pm ∈ migs, pm.2.name ≠ "" ∧ pm.2.always = true) →
      ∃ db' evs, doHookPhase cfg fails databaseSpecs migs db = .ok (db', evs)
        ∧ ∀ pm ∈ migs, Ev.bodyStart pm.2.name "always" false ∈ evs)
  ∧ (resultEvents (doHookPhase ⟨false, false, false, false, false, "hostA", 30000000, 30000001⟩
        (fun _ _ => false) databaseSpecs
        [("f1", ⟨"m1", none, true, true, false, false, false, none⟩),
         ("f2", ⟨"m2", none, true, true, false, false, false, none⟩)]
        ⟨[], [], []⟩)).filter isBodyStart
      = [Ev.bodyStart "m1" "action" false, Ev.bodyStart "m1" "always" false,
         Ev.bodyStart "m2" "action" false, Ev.bodyStart "m2" "always" false] := by
  constructor
  · intro cfg fails migs db hdry hdc hfails hmigs
    obtain ⟨db2, evs, hP, _, hmem⟩ := doHookPhase_db_safe cfg fails migs db
      (fun pm hpm => ⟨(hmigs pm hpm).1, by simp [(hmigs pm hpm).2]⟩) hfails
    exact ⟨db2, evs, hP, fun pm hpm => hmem pm hpm (hmigs pm hpm).2 hdry hdc⟩
  · decide

/-- Claim C4 witness: a concrete always-only migration has its always body
    invoked by the databaseMigrate phase. -/
theorem databaseMigrate_always_runs_witness :
    ∃ db' evs, doHookPhase ⟨false, false, false, false, false, "h", 0, 1⟩ (fun _ _ => false)
        databaseSpecs [("f1", ⟨"m1", none, false, true, false, false, false, none⟩)]
        ⟨[], [], []⟩
      = .ok (db', evs)
      ∧ ∀ pm ∈ [("f1", (⟨"m1", none, false, true, false, false, false, none⟩ : RawModule))],
          Ev.bodyStart pm.2.name "always" false ∈ evs :=
  databaseMigrate_always_runs.1 ⟨false, false, false, false, false, "h", 0, 1⟩
    (fun _ _ => false) [("f1", ⟨"m1", none, false, true, false, false, false, none⟩)]
    ⟨[], [], []⟩ rfl rfl (fun _ _ => rfl)
    (by intro pm hpm; rcases List.mem_singleton.mp hpm with rfl; exact ⟨by decide, rfl⟩)

end Pgmg
